import Mathlib

/-!
# Random-forest split library: a verification development

A shallow embedding of `src/vendor/ethz/random-forest/common-libraries.hpp`
(the parameter block `ForestParams`, the three splitters and the axis-aligned
split generator) together with theorems about it.

Modelling conventions.

* A byte is a `Fin 256`.  An object of a fixed-width arithmetic type is
  written to a stream as its object representation; the byte order of the
  platform is a parameter `Endian` of every codec function.
* `size_t` is a natural number below `2 ^ 64`, `int` an integer in
  `[-2 ^ 31, 2 ^ 31)` (LP64 data model).  A `float` or `double` that is only
  stored and copied is carried as its IEEE-754 bit pattern.
* The feature type `FeatureType` of the splitters is a type parameter `α`;
  the arithmetic of the splitters is the `+`, `*`, `0` and `<` of `α`.  The
  source's `float` is `Float32`, with the IEEE-754 binary32 comparison,
  addition and multiplication on bit patterns; exact arithmetic is any
  semiring.
* Reading outside an array is undefined behaviour in the source; the
  embedding returns `none` there.
-/

namespace RandomForest

/-! ## Bytes and object representations -/

/-- One byte of a stream. -/
abbrev Byte := Fin 256

/-- Byte order of the platform the code runs on. -/
inductive Endian where
  | little
  | big
  deriving DecidableEq, Repr

/-- The `k` low-order base-256 digits of `x`, least significant first. -/
def toLE : Nat → Nat → List Byte
  | 0, _ => []
  | k + 1, x => ⟨x % 256, Nat.mod_lt x (by decide)⟩ :: toLE k (x / 256)

/-- The number whose base-256 digits, least significant first, are `bs`. -/
def ofLE : List Byte → Nat
  | [] => 0
  | b :: bs => b.val + 256 * ofLE bs

/-- Object representation of an unsigned `k`-byte value `x` (the bytes that
`(char*)(&x)` points to), in the platform's byte order. -/
def objBytes (e : Endian) (k : Nat) (x : Nat) : List Byte :=
  match e with
  | Endian.little => toLE k x
  | Endian.big => (toLE k x).reverse

/-- The unsigned value whose object representation is `bs`. -/
def objValue (e : Endian) (bs : List Byte) : Nat :=
  match e with
  | Endian.little => ofLE bs
  | Endian.big => ofLE bs.reverse

/-- Bit pattern of a 32-bit two's-complement `int`. -/
def intBits (x : Int) : Nat := (x % 2 ^ 32).toNat

/-- The `int` with the given 32-bit two's-complement bit pattern. -/
def bitsInt (u : Nat) : Int := if u < 2 ^ 31 then (u : Int) else (u : Int) - 2 ^ 32

/-! ## Streams -/

/-- A `std::ostream` used as a byte sink: the bytes written so far. -/
abbrev OStream := List Byte

/-- Effect of `os.write(ptr, n)` where `bs` are the `n` bytes at `ptr`. -/
def OStream.write (os : OStream) (bs : List Byte) : OStream := os ++ bs

/-- A `std::istream` over a byte source: the bytes not yet extracted, the
number of bytes extracted so far, and the two state flags that `read` can
raise.  The exception mask is the default one (no exception is thrown when a
flag is raised). -/
structure IStream where
  unread : List Byte
  pos : Nat
  failbit : Bool
  eofbit : Bool
  deriving DecidableEq, Repr

/-- A fresh input stream over `bs`. -/
def IStream.ofBytes (bs : List Byte) : IStream :=
  { unread := bs, pos := 0, failbit := false, eofbit := false }

/-- Whether the stream is `good()`. -/
def IStream.good (is : IStream) : Bool := !is.failbit && !is.eofbit

/-- Effect of `is.read(ptr, n)` on a buffer currently holding the bytes `old`:
the new content of the buffer and the new stream.  A stream that is not good
extracts nothing and raises `failbit`; a good stream stores the bytes it can
extract at the front of the buffer and, when fewer than `n` are available,
raises `failbit` and `eofbit`. -/
def IStream.read (is : IStream) (old : List Byte) (n : Nat) : List Byte × IStream :=
  if is.good then
    if n ≤ is.unread.length then
      (is.unread.take n, { is with unread := is.unread.drop n, pos := is.pos + n })
    else
      (is.unread ++ old.drop is.unread.length,
        { unread := [], pos := is.pos + is.unread.length, failbit := true, eofbit := true })
  else
    (old, { is with failbit := true })

/-- The state of a fresh stream over `bs` once `read` has been asked for `k`
bytes in total: still good while the requests fit into `bs`, failed at the
end of the data otherwise. -/
def IStream.afterRequests (bs : List Byte) (k : Nat) : IStream :=
  if k ≤ bs.length then { unread := bs.drop k, pos := k, failbit := false, eofbit := false }
  else { unread := [], pos := bs.length, failbit := true, eofbit := true }

/-- Read an unsigned `k`-byte object (`size_t`, or the bit pattern of a
`float` or `double`) whose current value is `old`. -/
def readUnsigned (e : Endian) (k : Nat) (is : IStream) (old : Nat) : Nat × IStream :=
  let r := is.read (objBytes e k old) k
  (objValue e r.1, r.2)

/-- Read a 32-bit `int` whose current value is `old`. -/
def readInt (e : Endian) (is : IStream) (old : Int) : Int × IStream :=
  let r := is.read (objBytes e 4 (intBits old)) 4
  (bitsInt (objValue e r.1), r.2)

/-! ## ForestParams -/

/-- The parameter block.  The seven counters are `size_t`; `sample_reduction`
is the bit pattern of a `float`, `resolution` and `radius` are bit patterns of
`double`s, `numScales` is an `int`. -/
structure ForestParams where
  n_classes : Nat
  n_features : Nat
  n_samples : Nat
  n_in_bag_samples : Nat
  max_depth : Nat
  n_trees : Nat
  min_samples_per_node : Nat
  sample_reduction : Nat
  resolution : Nat
  radius : Nat
  numScales : Int
  deriving DecidableEq, Repr

/-- Every field lies in the range of its machine type. -/
def ForestParams.Valid (p : ForestParams) : Prop :=
  p.n_classes < 2 ^ 64 ∧ p.n_features < 2 ^ 64 ∧ p.n_samples < 2 ^ 64 ∧
  p.n_in_bag_samples < 2 ^ 64 ∧ p.max_depth < 2 ^ 64 ∧ p.n_trees < 2 ^ 64 ∧
  p.min_samples_per_node < 2 ^ 64 ∧ p.sample_reduction < 2 ^ 32 ∧
  p.resolution < 2 ^ 64 ∧ p.radius < 2 ^ 64 ∧
  -(2 : Int) ^ 31 ≤ p.numScales ∧ p.numScales < 2 ^ 31

instance (p : ForestParams) : Decidable p.Valid := by
  unfold ForestParams.Valid; infer_instance

/-- The default constructor: `0.0f` is `0x00000000`, `-1.0` is
`0xBFF0000000000000` and `0.6` is `0x3FE3333333333333`. -/
def ForestParams.default : ForestParams :=
  { n_classes := 0
    n_features := 0
    n_samples := 0
    n_in_bag_samples := 0
    max_depth := 42
    n_trees := 100
    min_samples_per_node := 5
    sample_reduction := 0
    resolution := 0xBFF0000000000000
    radius := 0x3FE3333333333333
    numScales := 5 }

/-- Embeds `ForestParams::write`: eleven `os.write` calls in declaration order.  The
member function is not `const`; the returned pair is the object after the
call and the stream after the call. -/
def ForestParams.write (e : Endian) (p : ForestParams) (os : OStream) :
    ForestParams × OStream :=
  let os := os.write (objBytes e 8 p.n_classes)
  let os := os.write (objBytes e 8 p.n_features)
  let os := os.write (objBytes e 8 p.n_samples)
  let os := os.write (objBytes e 8 p.n_in_bag_samples)
  let os := os.write (objBytes e 8 p.max_depth)
  let os := os.write (objBytes e 8 p.n_trees)
  let os := os.write (objBytes e 8 p.min_samples_per_node)
  let os := os.write (objBytes e 4 p.sample_reduction)
  let os := os.write (objBytes e 8 p.resolution)
  let os := os.write (objBytes e 8 p.radius)
  let os := os.write (objBytes e 4 (intBits p.numScales))
  (p, os)

/-- Embeds `ForestParams::read`: eleven `is.read` calls in declaration order, each
into the corresponding field of the object.  No call inspects the state of
the stream. -/
def ForestParams.read (e : Endian) (p : ForestParams) (is : IStream) :
    ForestParams × IStream :=
  let r1 := readUnsigned e 8 is p.n_classes
  let r2 := readUnsigned e 8 r1.2 p.n_features
  let r3 := readUnsigned e 8 r2.2 p.n_samples
  let r4 := readUnsigned e 8 r3.2 p.n_in_bag_samples
  let r5 := readUnsigned e 8 r4.2 p.max_depth
  let r6 := readUnsigned e 8 r5.2 p.n_trees
  let r7 := readUnsigned e 8 r6.2 p.min_samples_per_node
  let r8 := readUnsigned e 4 r7.2 p.sample_reduction
  let r9 := readUnsigned e 8 r8.2 p.resolution
  let r10 := readUnsigned e 8 r9.2 p.radius
  let r11 := readInt e r10.2 p.numScales
  ({ n_classes := r1.1
     n_features := r2.1
     n_samples := r3.1
     n_in_bag_samples := r4.1
     max_depth := r5.1
     n_trees := r6.1
     min_samples_per_node := r7.1
     sample_reduction := r8.1
     resolution := r9.1
     radius := r10.1
     numScales := r11.1 }, r11.2)

/-! ## Feature values, pointers and matrices -/

/-- An IEEE-754 binary32 value (the source's `FeatureType` is `float`),
carried as its 32-bit pattern: sign bit, 8 exponent bits, 23 fraction bits. -/
structure Float32 where
  bits : Nat
  deriving DecidableEq, Repr

/-- Whether the pattern is a NaN: exponent all ones and fraction non-zero. -/
def Float32.isNaN (x : Float32) : Bool :=
  x.bits / 2 ^ 23 % 256 == 255 && x.bits % 2 ^ 23 != 0

/-- Sign-magnitude reading of the pattern; on values that are not NaN it is
monotone in the represented number, and it sends both zeros to `0`. -/
def Float32.key (x : Float32) : Int :=
  if x.bits / 2 ^ 31 % 2 = 1 then -((x.bits % 2 ^ 31 : Nat) : Int)
  else ((x.bits % 2 ^ 31 : Nat) : Int)

/-- The comparison `a < b` of two floats: false when either is a NaN. -/
def Float32.lt (a b : Float32) : Prop :=
  a.isNaN = false ∧ b.isNaN = false ∧ a.key < b.key

/-- The comparison `a <= b` of two floats, extended so that every pattern is
related to itself. -/
def Float32.le (a b : Float32) : Prop :=
  (a.isNaN = false ∧ b.isNaN = false ∧ a.key ≤ b.key) ∨ a = b

instance : LT Float32 := ⟨Float32.lt⟩

instance : LE Float32 := ⟨Float32.le⟩

instance (a b : Float32) : Decidable (a < b) := by
  show Decidable (Float32.lt a b)
  unfold Float32.lt
  infer_instance

instance (a b : Float32) : Decidable (a ≤ b) := by
  show Decidable (Float32.le a b)
  unfold Float32.le
  infer_instance

/-- The order on floats: `<` is the comparison of the source, and `≤` relates
a pattern to itself and to every pattern it compares `<=` with. -/
instance : Preorder Float32 where
  le_refl a := Or.inr rfl
  le_trans a b c hab hbc := by
    rcases hab with ⟨h1, h2, h3⟩ | rfl
    · rcases hbc with ⟨h4, h5, h6⟩ | rfl
      · exact Or.inl ⟨h1, h5, le_trans h3 h6⟩
      · exact Or.inl ⟨h1, h2, h3⟩
    · exact hbc
  lt_iff_le_not_le a b := by
    constructor
    · rintro ⟨h1, h2, h3⟩
      refine ⟨Or.inl ⟨h1, h2, le_of_lt h3⟩, ?_⟩
      rintro (⟨_, _, h4⟩ | rfl)
      · exact absurd h3 (not_lt_of_le h4)
      · exact lt_irrefl _ h3
    · rintro ⟨h1 | rfl, h2⟩
      · obtain ⟨h3, h4, h5⟩ := h1
        refine ⟨h3, h4, lt_of_not_le ?_⟩
        intro h6
        exact h2 (Or.inl ⟨h4, h3, h6⟩)
      · exact absurd (Or.inr rfl) h2

/-! ### Float arithmetic

Addition and multiplication of `float` values as IEEE-754 binary32
operations, rounding to nearest with ties to even.  Every finite value is an
integer multiple of `2 ^ (-149)`; the operations compute the exact result in
such units and round it. -/

/-- Whether the sign bit of the pattern is set. -/
def Float32.signBit (x : Float32) : Bool := x.bits / 2 ^ 31 % 2 == 1

/-- The exponent field of the pattern. -/
def Float32.expField (x : Float32) : Nat := x.bits / 2 ^ 23 % 256

/-- The fraction field of the pattern. -/
def Float32.fracField (x : Float32) : Nat := x.bits % 2 ^ 23

/-- Whether the pattern is an infinity: exponent all ones and fraction zero. -/
def Float32.isInf (x : Float32) : Bool := x.expField == 255 && x.fracField == 0

/-- The magnitude of a finite value in units of `2 ^ (-149)`: the fraction
for a subnormal, `(2 ^ 23 + fraction) * 2 ^ (exponent - 1)` for a normal
value. -/
def Float32.mag (x : Float32) : Nat :=
  if x.expField = 0 then x.fracField else (2 ^ 23 + x.fracField) * 2 ^ (x.expField - 1)

/-- The finite value in units of `2 ^ (-149)`, with its sign. -/
def Float32.signedMag (x : Float32) : Int :=
  if x.signBit then -(x.mag : Int) else (x.mag : Int)

/-- The rational number a finite pattern stands for. -/
def Float32.toRat (x : Float32) : ℚ := (x.signedMag : ℚ) / 2 ^ 149

/-- Number of binary digits of `n`, for `n` below `2 ^ fuel`. -/
def bitLength : Nat → Nat → Nat
  | 0, _ => 0
  | fuel + 1, n => if n = 0 then 0 else bitLength fuel (n / 2) + 1

/-- The float nearest to `± n * 2 ^ (-(149 + k))`, ties to even, for `n`
below `2 ^ 640`: `n` keeps its 24 leading digits, but no digit below the
unit `2 ^ (-149)`; a result beyond the largest finite value is an
infinity. -/
def Float32.ofScaled (neg : Bool) (n k : Nat) : Float32 :=
  let s := max (bitLength 640 n - 24) k
  let q := n / 2 ^ s
  let rem := n % 2 ^ s
  let m := if 2 ^ s < 2 * rem ∨ (2 * rem = 2 ^ s ∧ q % 2 = 1) then q + 1 else q
  let magBits := if m < 2 ^ 23 then m else (s - k) * 2 ^ 23 + m
  ⟨(if neg then 2 ^ 31 else 0) + (if magBits < 255 * 2 ^ 23 then magBits else 255 * 2 ^ 23)⟩

/-- A quiet NaN; every NaN result is represented by this pattern. -/
def Float32.nan : Float32 := ⟨0x7FC00000⟩

/-- The sum `a + b` of two floats. -/
def Float32.add (a b : Float32) : Float32 :=
  if a.isNaN || b.isNaN then Float32.nan
  else if a.isInf && b.isInf then (if a.signBit = b.signBit then a else Float32.nan)
  else if a.isInf then a
  else if b.isInf then b
  else if a.signedMag + b.signedMag = 0 then
    (if a.signBit && b.signBit then ⟨2 ^ 31⟩ else ⟨0⟩)
  else
    Float32.ofScaled (decide (a.signedMag + b.signedMag < 0))
      (a.signedMag + b.signedMag).natAbs 0

/-- The product `a * b` of two floats. -/
def Float32.mul (a b : Float32) : Float32 :=
  if a.isNaN || b.isNaN then Float32.nan
  else if a.isInf || b.isInf then
    (if a.mag = 0 ∨ b.mag = 0 then Float32.nan
     else ⟨(if xor a.signBit b.signBit then 2 ^ 31 else 0) + 255 * 2 ^ 23⟩)
  else Float32.ofScaled (xor a.signBit b.signBit) (a.mag * b.mag) 149

instance : Add Float32 := ⟨Float32.add⟩

instance : Mul Float32 := ⟨Float32.mul⟩

instance : Zero Float32 := ⟨⟨0⟩⟩

/-- Element `i` of the array a pointer or vector `l` refers to, for a signed
index; `none` outside the array. -/
def idx? {α : Type} (l : List α) (i : Int) : Option α :=
  if 0 ≤ i then l[i.toNat]? else none

/-- Modelled from the spec: `DataView2D` is declared in `dataview.h`, which is
not among the sources.  Following the data model ("row-major view over
`n_samples × n_features` floating-point values", "parallel-indexed" labels),
a view is its element sequence in row-major order with the two dimensions;
both dimensions are taken to be below `2 ^ 31`, so that the conversions
between `size_t` and `int` at the call sites preserve them. -/
structure DataView2D (α : Type) where
  data : List α
  rows : Nat
  cols : Nat

/-- The element sequence has exactly `rows * cols` entries. -/
def DataView2D.WF {α : Type} (m : DataView2D α) : Prop :=
  m.data.length = m.rows * m.cols

instance {α : Type} (m : DataView2D α) : Decidable m.WF := by
  unfold DataView2D.WF; infer_instance

/-- Modelled from the spec: `operator()(row, col)` of `DataView2D`, the
element in row `r` and column `c`; `none` outside the view. -/
def DataView2D.get {α : Type} (m : DataView2D α) (r c : Int) : Option α :=
  if 0 ≤ r ∧ r < m.rows ∧ 0 ≤ c ∧ c < m.cols then
    m.data[r.toNat * m.cols + c.toNat]?
  else none

/-- Modelled from the spec: `row_pointer(row)` of `DataView2D`, the `cols`
values of row `r`; `none` outside the view. -/
def DataView2D.row_pointer {α : Type} (m : DataView2D α) (r : Int) : Option (List α) :=
  if 0 ≤ r ∧ r < m.rows then
    some ((m.data.drop (r.toNat * m.cols)).take m.cols)
  else none

/-- The loop `for (int i = i0; i < i0 + k; ++i) body`, whose body may hit
undefined behaviour. -/
def forLoop {σ : Type} (body : Nat → σ → Option σ) : Nat → Nat → σ → Option σ
  | 0, _, s => some s
  | k + 1, i, s => (body i s).bind (forLoop body k (i + 1))

/-- The loop `for (int i = 0; i < n; ++i) body` for a signed bound `n`. -/
def forUpTo {σ : Type} (n : Int) (body : Nat → σ → Option σ) (s : σ) : Option σ :=
  forLoop body n.toNat 0 s

/-- Embeds `FeatureClassDataFloat`: a vector of (value, class) pairs. -/
abbrev FeatureClassData (α : Type) := List (α × Int)

/-- The loop shared by the three `map_points` members: for each position
`i_sample` below `n_samples`, look up the sample index, its class and its
scalar value `fval`, and store the pair at `data_points[i_sample]`. -/
def map_points_loop {α : Type} (fval : Int → Option α) (labels : DataView2D Int)
    (sample_idxes : List Int) (n_samples : Int) (data_points : FeatureClassData α) :
    Option (FeatureClassData α) :=
  forUpTo n_samples (fun i_sample data =>
    (sample_idxes[i_sample]?).bind fun sample_idx =>
    (labels.get sample_idx 0).bind fun sample_class =>
    (fval sample_idx).bind fun sample_fval =>
    if i_sample < data.length then some (data.set i_sample (sample_fval, sample_class))
    else none) data_points

/-! ## Splitters -/

/-- Embeds `QuadraticSplitter`. -/
structure QuadraticSplitter (α : Type) where
  n_features : Int
  w : List α
  threshold : α

/-- Embeds `QuadraticSplitter::set_threshold`. -/
def QuadraticSplitter.set_threshold {α : Type} (s : QuadraticSplitter α) (new_threshold : α) :
    QuadraticSplitter α :=
  { s with threshold := new_threshold }

/-- Embeds `QuadraticSplitter::map_sample`.  The first loop adds `w[i] * v[i]` and
leaves the running index `i_feature` at the number of iterations made; the
nested loops add `w[i_feature++] * v[i_1] * v[i_2]`.  The loop state of the
nested loops is the pair (`result`, `i_feature`).  The running index is an
`int`: incrementing it past `INT_MAX = 2 ^ 31 - 1` is undefined, hence
`none`. -/
def QuadraticSplitter.map_sample {α : Type} [Zero α] [Add α] [Mul α]
    (s : QuadraticSplitter α) (v : List α) : Option α :=
  (forUpTo s.n_features (fun i_feature result =>
      (s.w[i_feature]?).bind fun wi =>
      (v[i_feature]?).bind fun vi =>
      some (result + wi * vi)) 0).bind fun result =>
  (forUpTo s.n_features (fun i_1 st =>
      forUpTo s.n_features (fun i_2 st =>
        (s.w[st.2]?).bind fun wk =>
        (v[i_1]?).bind fun v1 =>
        (v[i_2]?).bind fun v2 =>
        if st.2 + 1 < 2 ^ 31 then some (st.1 + wk * v1 * v2, st.2 + 1) else none) st)
    (result, s.n_features.toNat)).map fun st => st.1

/-- Embeds `QuadraticSplitter::classify_sample`. -/
def QuadraticSplitter.classify_sample {α : Type} [Zero α] [Add α] [Mul α] [LT α]
    [DecidableRel ((· < ·) : α → α → Prop)] (s : QuadraticSplitter α) (v : List α) :
    Option Bool :=
  (s.map_sample v).map fun x => decide (s.threshold < x)

/-- Embeds `QuadraticSplitter::map_points`. -/
def QuadraticSplitter.map_points {α : Type} [Zero α] [Add α] [Mul α]
    (s : QuadraticSplitter α) (samples : DataView2D α) (labels : DataView2D Int)
    (sample_idxes : List Int) (n_samples : Int) (data_points : FeatureClassData α) :
    Option (FeatureClassData α) :=
  map_points_loop (fun sample_idx => (samples.row_pointer sample_idx).bind s.map_sample)
    labels sample_idxes n_samples data_points

/-- Embeds `std::inner_product(first1, last1, first2, init)`: the first range is
`w`, the second starts at `v`. -/
def inner_product {α : Type} [Add α] [Mul α] : List α → List α → α → Option α
  | [], _, init => some init
  | _ :: _, [], _ => none
  | a :: w, b :: v, init => inner_product w v (init + a * b)

/-- Embeds `LinearSplitter`. -/
structure LinearSplitter (α : Type) where
  w : List α
  threshold : α

/-- Embeds `LinearSplitter::set_threshold`. -/
def LinearSplitter.set_threshold {α : Type} (s : LinearSplitter α) (new_threshold : α) :
    LinearSplitter α :=
  { s with threshold := new_threshold }

/-- Embeds `LinearSplitter::classify_sample`. -/
def LinearSplitter.classify_sample {α : Type} [Zero α] [Add α] [Mul α] [LT α]
    [DecidableRel ((· < ·) : α → α → Prop)] (s : LinearSplitter α) (v : List α) :
    Option Bool :=
  (inner_product s.w v 0).map fun x => decide (s.threshold < x)

/-- Embeds `LinearSplitter::map_points`. -/
def LinearSplitter.map_points {α : Type} [Zero α] [Add α] [Mul α]
    (s : LinearSplitter α) (samples : DataView2D α) (labels : DataView2D Int)
    (sample_idxes : List Int) (n_samples : Int) (data_points : FeatureClassData α) :
    Option (FeatureClassData α) :=
  map_points_loop
    (fun sample_idx => (samples.row_pointer sample_idx).bind fun row => inner_product s.w row 0)
    labels sample_idxes n_samples data_points

/-- Embeds `AxisAlignedSplitter`. -/
structure AxisAlignedSplitter (α : Type) where
  feature : Int
  threshold : α

/-- Embeds `AxisAlignedSplitter::set_threshold`. -/
def AxisAlignedSplitter.set_threshold {α : Type} (s : AxisAlignedSplitter α)
    (new_threshold : α) : AxisAlignedSplitter α :=
  { s with threshold := new_threshold }

/-- Embeds `AxisAlignedSplitter::classify_sample`. -/
def AxisAlignedSplitter.classify_sample {α : Type} [LT α]
    [DecidableRel ((· < ·) : α → α → Prop)] (s : AxisAlignedSplitter α) (v : List α) :
    Option Bool :=
  (idx? v s.feature).map fun x => decide (s.threshold < x)

/-- Embeds `AxisAlignedSplitter::map_points`. -/
def AxisAlignedSplitter.map_points {α : Type} (s : AxisAlignedSplitter α)
    (samples : DataView2D α) (labels : DataView2D Int) (sample_idxes : List Int)
    (n_samples : Int) (data_points : FeatureClassData α) : Option (FeatureClassData α) :=
  map_points_loop (fun sample_idx => samples.get sample_idx s.feature)
    labels sample_idxes n_samples data_points

/-- The fields of an `AxisAlignedSplitter` of floats lie in the range of
their machine types. -/
def AxisAlignedSplitter.Valid (s : AxisAlignedSplitter Float32) : Prop :=
  -(2 : Int) ^ 31 ≤ s.feature ∧ s.feature < 2 ^ 31 ∧ s.threshold.bits < 2 ^ 32

instance (s : AxisAlignedSplitter Float32) : Decidable s.Valid := by
  unfold AxisAlignedSplitter.Valid; infer_instance

/-- Embeds `AxisAlignedSplitter::write`; the pair is the object and the stream after
the call. -/
def AxisAlignedSplitter.write (e : Endian) (s : AxisAlignedSplitter Float32) (os : OStream) :
    AxisAlignedSplitter Float32 × OStream :=
  let os := os.write (objBytes e 4 (intBits s.feature))
  let os := os.write (objBytes e 4 s.threshold.bits)
  (s, os)

/-- Embeds `AxisAlignedSplitter::read`. -/
def AxisAlignedSplitter.read (e : Endian) (s : AxisAlignedSplitter Float32) (is : IStream) :
    AxisAlignedSplitter Float32 × IStream :=
  let r1 := readInt e is s.feature
  let r2 := readUnsigned e 4 r1.2 s.threshold.bits
  ({ feature := r1.1, threshold := ⟨r2.1⟩ }, r2.2)

/-! ## The axis-aligned split generator -/

/-- Embeds `FeatureSet` (`std::unordered_set<int>`): the elements in the order an
iteration visits them.  The order a real hash set would use is unspecified;
an absent element is placed last here, and no theorem depends on the
position. -/
structure FeatureSet where
  elems : List Int
  deriving DecidableEq, Repr

/-- Embeds `features.clear()`. -/
def FeatureSet.clear (_s : FeatureSet) : FeatureSet := ⟨[]⟩

/-- Embeds `features.size()`. -/
def FeatureSet.size (s : FeatureSet) : Nat := s.elems.length

/-- Embeds `features.insert(x)`: no effect when `x` is already present. -/
def FeatureSet.insert (s : FeatureSet) (x : Int) : FeatureSet :=
  if x ∈ s.elems then s else ⟨s.elems ++ [x]⟩

/-- Embeds `RandomGen` (`std::mt19937`), abstracted to the sequence of raw values it
is going to produce. -/
structure RandomGen where
  stream : Nat → Nat

/-- One raw value and the generator after producing it. -/
def RandomGen.next (gen : RandomGen) : Nat × RandomGen :=
  (gen.stream 0, ⟨fun i => gen.stream (i + 1)⟩)

/-- Embeds `UniformIntDist` (`std::uniform_int_distribution<>`) over `[a, b]`. -/
structure UniformIntDist where
  a : Int
  b : Int

/-- Embeds `dist(gen)`: consumes one raw value and yields a value of `[a, b]`, the
raw value reduced modulo the size of the range (every sequence of results in
`[a, b]` arises from some generator).  Undefined when `b < a`. -/
def UniformIntDist.draw (dist : UniformIntDist) (gen : RandomGen) : Option (Int × RandomGen) :=
  if dist.a ≤ dist.b then
    some (dist.a + ((gen.next.1 % (dist.b - dist.a + 1).toNat : Nat) : Int), gen.next.2)
  else none

/-- Embeds `AxisAlignedRandomSplitGenerator`: the selected features and the position
of the iterator `it` in the iteration order (`features.size()` is `end()`). -/
structure AxisAlignedRandomSplitGenerator where
  features : FeatureSet
  it : Nat
  deriving DecidableEq, Repr

/-- The loop `while (features.size() < n_used_features)
features.insert(dist(gen));` run for at most `fuel` iterations; `none` when
the loop has not finished by then. -/
def AxisAlignedRandomSplitGenerator.init_loop (dist : UniformIntDist) (n_used_features : Nat) :
    Nat → FeatureSet → RandomGen → Option (FeatureSet × RandomGen)
  | 0, features, gen => if features.size < n_used_features then none else some (features, gen)
  | fuel + 1, features, gen =>
    if features.size < n_used_features then
      match dist.draw gen with
      | some (x, gen1) =>
        AxisAlignedRandomSplitGenerator.init_loop dist n_used_features fuel (features.insert x) gen1
      | none => none
    else some (features, gen)

/-- Embeds `AxisAlignedRandomSplitGenerator::init`.  The labels, the sample subset
and the class count are unused parameters of the source.  The conversion of
`std::sqrt(n_features)` to `size_t` truncates; `n_features` is an `int`, so
its square root is computed without crossing an integer and the truncated
value is the integer square root. -/
def AxisAlignedRandomSplitGenerator.init {α : Type} (fuel : Nat)
    (g : AxisAlignedRandomSplitGenerator) (samples : DataView2D α) (gen : RandomGen) :
    Option (AxisAlignedRandomSplitGenerator × RandomGen) :=
  let features := g.features.clear
  let n_features : Int := samples.cols
  let n_used_features : Nat := Nat.sqrt n_features.toNat
  let dist : UniformIntDist := ⟨0, n_features - 1⟩
  (AxisAlignedRandomSplitGenerator.init_loop dist n_used_features fuel features gen).map
    fun r => ({ features := r.1, it := 0 }, r.2)

/-- Embeds `AxisAlignedRandomSplitGenerator::num_proposals`. -/
def AxisAlignedRandomSplitGenerator.num_proposals (g : AxisAlignedRandomSplitGenerator) : Nat :=
  g.features.size

/-- The value `n_used_features` that `init` computes for a feature matrix,
the truncated square root of the column count. -/
def AxisAlignedRandomSplitGenerator.n_used_features {α : Type} (samples : DataView2D α) : Nat :=
  Nat.sqrt (samples.cols : Int).toNat

/-- The constructor `AxisAlignedSplitter(int feature)`: the threshold is set
to `-1`. -/
def AxisAlignedSplitter.new {α : Type} [Neg α] [One α] (feature : Int) :
    AxisAlignedSplitter α :=
  { feature := feature, threshold := -1 }

/-- The default constructor `AxisAlignedSplitter()`: feature `-1` and
threshold `-1`. -/
def AxisAlignedSplitter.newDefault {α : Type} [Neg α] [One α] : AxisAlignedSplitter α :=
  { feature := -1, threshold := -1 }

/-- Embeds `AxisAlignedRandomSplitGenerator::gen_proposal`: an iterator at
`end()` is moved back to `begin()`, then the element under the iterator is
returned in a new splitter and the iterator advances.  The random source is
an unused parameter of the source.  Dereferencing `end()` (an empty set) is
undefined, hence `none`. -/
def AxisAlignedRandomSplitGenerator.gen_proposal {α : Type} [Neg α] [One α]
    (g : AxisAlignedRandomSplitGenerator) (gen : RandomGen) :
    Option (AxisAlignedSplitter α × AxisAlignedRandomSplitGenerator × RandomGen) :=
  let it := if g.it = g.features.size then 0 else g.it
  match g.features.elems[it]? with
  | some feature => some (AxisAlignedSplitter.new feature, { g with it := it + 1 }, gen)
  | none => none

/-- The call number `k + 1` in a run of consecutive `gen_proposal` calls that
starts in state `g`: its result, when no earlier call hit undefined
behaviour. -/
def AxisAlignedRandomSplitGenerator.nth_proposal {α : Type} [Neg α] [One α] :
    Nat → AxisAlignedRandomSplitGenerator → RandomGen →
    Option (AxisAlignedSplitter α × AxisAlignedRandomSplitGenerator × RandomGen)
  | 0, g, gen => g.gen_proposal gen
  | k + 1, g, gen =>
    (g.gen_proposal gen :
        Option (AxisAlignedSplitter α × AxisAlignedRandomSplitGenerator × RandomGen)).bind
      fun r => AxisAlignedRandomSplitGenerator.nth_proposal k r.2.1 r.2.2

/-! ## The linear and quadratic split generators -/

/-- Embeds `NormalDist` (`std::normal_distribution<>`), abstracted to the feature
value it makes out of one raw value of the generator (every sequence of
results arises from some generator). -/
structure NormalDist (α : Type) where
  value : Nat → α

/-- Embeds `dist(gen)` for a `NormalDist`, converted to `FeatureType`. -/
def NormalDist.draw {α : Type} (dist : NormalDist α) (gen : RandomGen) : α × RandomGen :=
  (dist.value gen.next.1, gen.next.2)

/-- The constructor `LinearSplitter(w)`.  It leaves the threshold
uninitialised; `indeterminate` is the value the member happens to hold. -/
def LinearSplitter.new {α : Type} (w : List α) (indeterminate : α) : LinearSplitter α :=
  { w := w, threshold := indeterminate }

/-- The constructor `QuadraticSplitter(n_features, w)`.  It leaves the
threshold uninitialised; `indeterminate` is the value the member happens to
hold. -/
def QuadraticSplitter.new {α : Type} (n_features : Int) (w : List α) (indeterminate : α) :
    QuadraticSplitter α :=
  { n_features := n_features, w := w, threshold := indeterminate }

/-- The loop `for (i = 0; i < n; ++i) weights[i] = dist(gen);` of the two
`gen_proposal` members, on the pair of the weight vector and the random
source. -/
def fill_weights {α : Type} (dist : NormalDist α) (n : Nat) (weights : List α)
    (gen : RandomGen) : Option (List α × RandomGen) :=
  forLoop (fun i_feature (st : List α × RandomGen) =>
    if i_feature < st.1.length then
      some (st.1.set i_feature (dist.draw st.2).1, (dist.draw st.2).2)
    else none) n 0 (weights, gen)

/-- Embeds `LinearSplitGenerator`: `n_features` is not set by the constructor and
is `none` until `init` has run. -/
structure LinearSplitGenerator where
  n_features : Option Nat
  n_proposals : Nat
  deriving DecidableEq, Repr

/-- The constructor `LinearSplitGenerator(size_t n_proposals)`. -/
def LinearSplitGenerator.new (n_proposals : Nat) : LinearSplitGenerator :=
  { n_features := none, n_proposals := n_proposals }

/-- The constructor with its default argument, `LinearSplitGenerator()`. -/
def LinearSplitGenerator.newDefault : LinearSplitGenerator := LinearSplitGenerator.new 5

/-- Embeds `LinearSplitGenerator::init`: records the column count.  The
labels, the sample subset, the class count and the random source are unused
parameters of the source. -/
def LinearSplitGenerator.init {α : Type} (g : LinearSplitGenerator) (samples : DataView2D α)
    (_labels : DataView2D Int) (_sample_idxes : List Int) (_n_samples : Int)
    (_n_classes : Nat) (gen : RandomGen) : LinearSplitGenerator × RandomGen :=
  ({ g with n_features := some samples.cols }, gen)

/-- Embeds `LinearSplitGenerator::num_proposals`. -/
def LinearSplitGenerator.num_proposals (g : LinearSplitGenerator) : Nat := g.n_proposals

/-- Embeds `LinearSplitGenerator::gen_proposal`: a vector of `n_features`
zeros is filled with fresh draws and wrapped in a splitter.  Reading
`n_features` before `init` has set it is undefined, hence `none`. -/
def LinearSplitGenerator.gen_proposal {α : Type} [Zero α] (dist : NormalDist α)
    (indeterminate : α) (g : LinearSplitGenerator) (gen : RandomGen) :
    Option (LinearSplitter α × LinearSplitGenerator × RandomGen) :=
  g.n_features.bind fun n_features =>
  (fill_weights dist n_features (List.replicate n_features 0) gen).map fun st =>
    (LinearSplitter.new st.1 indeterminate, g, st.2)

/-- Embeds `QuadraticSplitGenerator`: `n_features` is not set by the constructor and
is `none` until `init` has run. -/
structure QuadraticSplitGenerator where
  n_features : Option Nat
  n_proposals : Nat
  deriving DecidableEq, Repr

/-- The constructor `QuadraticSplitGenerator(size_t n_proposals)`. -/
def QuadraticSplitGenerator.new (n_proposals : Nat) : QuadraticSplitGenerator :=
  { n_features := none, n_proposals := n_proposals }

/-- The constructor with its default argument, `QuadraticSplitGenerator()`. -/
def QuadraticSplitGenerator.newDefault : QuadraticSplitGenerator :=
  QuadraticSplitGenerator.new 5

/-- Embeds `QuadraticSplitGenerator::init`: records the column count.  The
labels, the sample subset, the class count and the random source are unused
parameters of the source. -/
def QuadraticSplitGenerator.init {α : Type} (g : QuadraticSplitGenerator)
    (samples : DataView2D α) (_labels : DataView2D Int) (_sample_idxes : List Int)
    (_n_samples : Int) (_n_classes : Nat) (gen : RandomGen) :
    QuadraticSplitGenerator × RandomGen :=
  ({ g with n_features := some samples.cols }, gen)

/-- Embeds `QuadraticSplitGenerator::num_proposals`. -/
def QuadraticSplitGenerator.num_proposals (g : QuadraticSplitGenerator) : Nat := g.n_proposals

/-- Embeds `QuadraticSplitGenerator::gen_proposal`: a vector of
`n_features + n_features * n_features` zeros is filled with fresh draws, up
to `weights.size()`, and wrapped in a splitter together with `n_features`.
Reading `n_features` before `init` has set it is undefined, hence `none`. -/
def QuadraticSplitGenerator.gen_proposal {α : Type} [Zero α] (dist : NormalDist α)
    (indeterminate : α) (g : QuadraticSplitGenerator) (gen : RandomGen) :
    Option (QuadraticSplitter α × QuadraticSplitGenerator × RandomGen) :=
  g.n_features.bind fun n_features =>
  (fill_weights dist (List.replicate (n_features + n_features * n_features) (0 : α)).length
      (List.replicate (n_features + n_features * n_features) 0) gen).map fun st =>
    (QuadraticSplitter.new (n_features : Int) st.1 indeterminate, g, st.2)

/-! ## The reads of `QuadraticSplitter::map_sample` -/

/-- State of `map_sample` with a record of its reads: `result`, the running
weight index `i_feature`, the indices at which `w` has been read and the
indices at which `v` has been read, both in the order of the reads. -/
structure MapSampleState (α : Type) where
  result : α
  i_feature : Nat
  w_reads : List Nat
  v_reads : List Nat

/-- Embeds `QuadraticSplitter::map_sample` once more, statement by
statement as `QuadraticSplitter.map_sample`, with every read of `w` and of
`v` also entered in the record; it hits undefined behaviour exactly where
`QuadraticSplitter.map_sample` does. -/
def QuadraticSplitter.map_sample_traced {α : Type} [Zero α] [Add α] [Mul α]
    (s : QuadraticSplitter α) (v : List α) : Option (MapSampleState α) :=
  (forUpTo s.n_features (fun i_feature (st : MapSampleState α) =>
      (s.w[i_feature]?).bind fun wi =>
      (v[i_feature]?).bind fun vi =>
      some { result := st.result + wi * vi
             i_feature := i_feature + 1
             w_reads := st.w_reads ++ [i_feature]
             v_reads := st.v_reads ++ [i_feature] })
    { result := 0, i_feature := 0, w_reads := [], v_reads := [] }).bind fun st =>
  forUpTo s.n_features (fun i_1 (st : MapSampleState α) =>
      forUpTo s.n_features (fun i_2 (st : MapSampleState α) =>
        (s.w[st.i_feature]?).bind fun wk =>
        (v[i_1]?).bind fun v1 =>
        (v[i_2]?).bind fun v2 =>
        if st.i_feature + 1 < 2 ^ 31 then
          some { result := st.result + wk * v1 * v2
                 i_feature := st.i_feature + 1
                 w_reads := st.w_reads ++ [st.i_feature]
                 v_reads := st.v_reads ++ [i_1, i_2] }
        else none) st)
    { st with i_feature := s.n_features.toNat }

/-! ## Codec lemmas -/

theorem toLE_length (k x : Nat) : (toLE k x).length = k := by
  induction k generalizing x with
  | zero => rfl
  | succ k ih => simp [toLE, ih]

theorem ofLE_toLE (k x : Nat) : ofLE (toLE k x) = x % 256 ^ k := by
  induction k generalizing x with
  | zero => simp [toLE, ofLE, Nat.mod_one]
  | succ k ih =>
    simp only [toLE, ofLE, ih]
    rw [pow_succ, mul_comm (256 ^ k) 256, Nat.mod_mul]

theorem ofLE_lt (bs : List Byte) : ofLE bs < 256 ^ bs.length := by
  induction bs with
  | nil => simp [ofLE]
  | cons b bs ih =>
    simp only [ofLE, List.length_cons, pow_succ]
    have := b.isLt
    omega

theorem toLE_ofLE (bs : List Byte) : toLE bs.length (ofLE bs) = bs := by
  induction bs with
  | nil => rfl
  | cons b bs ih =>
    have hb := b.isLt
    simp only [List.length_cons, toLE, ofLE]
    congr 1
    · apply Fin.ext
      simp [Nat.add_mul_mod_self_left, Nat.mod_eq_of_lt hb]
    · have : (b.val + 256 * ofLE bs) / 256 = ofLE bs := by omega
      rw [this, ih]

theorem objBytes_length (e : Endian) (k x : Nat) : (objBytes e k x).length = k := by
  cases e <;> simp [objBytes, toLE_length]

theorem objValue_objBytes (e : Endian) (k x : Nat) (h : x < 256 ^ k) :
    objValue e (objBytes e k x) = x := by
  cases e <;> simp [objBytes, objValue, ofLE_toLE, Nat.mod_eq_of_lt h]

theorem objValue_lt (e : Endian) (bs : List Byte) : objValue e bs < 256 ^ bs.length := by
  cases e
  · exact ofLE_lt bs
  · simpa [objValue] using ofLE_lt bs.reverse

theorem objBytes_objValue (e : Endian) (bs : List Byte) :
    objBytes e bs.length (objValue e bs) = bs := by
  cases e
  · exact toLE_ofLE bs
  · have := toLE_ofLE bs.reverse
    simp only [List.length_reverse] at this
    simp [objBytes, objValue, this]

theorem bitsInt_intBits (x : Int) (h1 : -(2 : Int) ^ 31 ≤ x) (h2 : x < 2 ^ 31) :
    bitsInt (intBits x) = x := by
  unfold bitsInt intBits
  have hnn : (0 : Int) ≤ x % 2 ^ 32 := Int.emod_nonneg _ (by norm_num)
  have hto : ((x % 2 ^ 32).toNat : Int) = x % 2 ^ 32 := Int.toNat_of_nonneg hnn
  by_cases hx : 0 ≤ x
  · have : x % 2 ^ 32 = x := Int.emod_eq_of_lt hx (by omega)
    split_ifs with hlt <;> omega
  · have : x % 2 ^ 32 = x + 2 ^ 32 := by
      rw [← Int.add_emod_self]
      exact Int.emod_eq_of_lt (by omega) (by omega)
    split_ifs with hlt <;> omega

theorem intBits_lt (x : Int) : intBits x < 2 ^ 32 := by
  unfold intBits
  have h1 : (0 : Int) ≤ x % 2 ^ 32 := Int.emod_nonneg _ (by norm_num)
  have h2 : x % 2 ^ 32 < 2 ^ 32 := Int.emod_lt_of_pos _ (by norm_num)
  omega

theorem intBits_bitsInt (u : Nat) (h : u < 2 ^ 32) : intBits (bitsInt u) = u := by
  unfold bitsInt intBits
  split_ifs with hlt <;> omega

theorem IStream.read_append (bs rest old : List Byte) (pos : Nat) :
    IStream.read ⟨bs ++ rest, pos, false, false⟩ old bs.length
      = (bs, ⟨rest, pos + bs.length, false, false⟩) := by
  simp [IStream.read, IStream.good]

theorem readUnsigned_objBytes (e : Endian) (k x old pos : Nat) (rest : List Byte)
    (h : x < 256 ^ k) :
    readUnsigned e k ⟨objBytes e k x ++ rest, pos, false, false⟩ old
      = (x, ⟨rest, pos + k, false, false⟩) := by
  have := IStream.read_append (objBytes e k x) rest (objBytes e k old) pos
  rw [objBytes_length] at this
  simp [readUnsigned, this, objValue_objBytes e k x h]

theorem readInt_objBytes (e : Endian) (x old : Int) (pos : Nat) (rest : List Byte)
    (h1 : -(2 : Int) ^ 31 ≤ x) (h2 : x < 2 ^ 31) :
    readInt e ⟨objBytes e 4 (intBits x) ++ rest, pos, false, false⟩ old
      = (x, ⟨rest, pos + 4, false, false⟩) := by
  have := IStream.read_append (objBytes e 4 (intBits x)) rest (objBytes e 4 (intBits old)) pos
  rw [objBytes_length] at this
  have hb : intBits x < 256 ^ 4 := by have := intBits_lt x; omega
  simp [readInt, this, objValue_objBytes e 4 _ hb, bitsInt_intBits x h1 h2]

theorem slice_append (a b c : List Byte) (off n : Nat) (ha : a.length = off)
    (hb : b.length = n) : ((a ++ (b ++ c)).drop off).take n = b := by
  subst ha hb
  simp

theorem ForestParams.write_snd (e : Endian) (p : ForestParams) :
    (p.write e []).2 = objBytes e 8 p.n_classes ++ (objBytes e 8 p.n_features ++
    (objBytes e 8 p.n_samples ++ (objBytes e 8 p.n_in_bag_samples ++
    (objBytes e 8 p.max_depth ++ (objBytes e 8 p.n_trees ++
    (objBytes e 8 p.min_samples_per_node ++ (objBytes e 4 p.sample_reduction ++
    (objBytes e 8 p.resolution ++ (objBytes e 8 p.radius ++
    objBytes e 4 (intBits p.numScales)))))))))) := by
  simp [ForestParams.write, OStream.write]

theorem ForestParams.write_length (e : Endian) (p : ForestParams) :
    (p.write e []).2.length = 80 := by
  simp [ForestParams.write_snd, objBytes_length]

theorem ForestParams.write_slices (e : Endian) (p : ForestParams) :
    objBytes e 8 p.n_classes = (((p.write e []).2).drop 0).take 8 ∧
    objBytes e 8 p.n_features = (((p.write e []).2).drop 8).take 8 ∧
    objBytes e 8 p.n_samples = (((p.write e []).2).drop 16).take 8 ∧
    objBytes e 8 p.n_in_bag_samples = (((p.write e []).2).drop 24).take 8 ∧
    objBytes e 8 p.max_depth = (((p.write e []).2).drop 32).take 8 ∧
    objBytes e 8 p.n_trees = (((p.write e []).2).drop 40).take 8 ∧
    objBytes e 8 p.min_samples_per_node = (((p.write e []).2).drop 48).take 8 ∧
    objBytes e 4 p.sample_reduction = (((p.write e []).2).drop 56).take 4 ∧
    objBytes e 8 p.resolution = (((p.write e []).2).drop 60).take 8 ∧
    objBytes e 8 p.radius = (((p.write e []).2).drop 68).take 8 ∧
    objBytes e 4 (intBits p.numScales) = (((p.write e []).2).drop 76).take 4 := by
  rw [ForestParams.write_snd]
  simp only [List.drop_append_eq_append_drop, List.take_append_eq_append_take,
    objBytes_length, List.drop_of_length_le, List.take_of_length_le, List.drop_zero,
    List.nil_append, List.append_nil, Nat.sub_self, Nat.reduceSub, Nat.reduceLeDiff,
    List.take_nil, List.take_zero, Nat.le_refl, Nat.zero_le, and_self]

/-! ## ForestParams: round trip and layout -/

/-- C1: for every valid block `p`, every prior content `q` of the block read
into and every good stream whose unread bytes are the bytes written by
`p.write` followed by `rest`, `read` yields `p` (all eleven fields, floats as
bit patterns) and leaves the stream good, 80 bytes further on, with exactly
`rest` unread. -/
theorem ForestParams.read_write (e : Endian) (p q : ForestParams) (rest : List Byte)
    (is : IStream) (hp : p.Valid) (hg : is.good = true)
    (hu : is.unread = (p.write e []).2 ++ rest) :
    q.read e is = (p, { is with unread := rest, pos := is.pos + 80 }) := by
  obtain ⟨u, pos, f, eo⟩ := is
  obtain ⟨h1, h2, h3, h4, h5, h6, h7, h8, h9, h10, h11, h12⟩ := hp
  simp only [IStream.good, Bool.and_eq_true, Bool.not_eq_true'] at hg
  obtain ⟨rfl, rfl⟩ := hg
  simp only [ForestParams.write, OStream.write, List.nil_append, List.append_assoc] at hu
  subst hu
  have e64 : (2:Nat) ^ 64 = 256 ^ 8 := by norm_num
  have e32 : (2:Nat) ^ 32 = 256 ^ 4 := by norm_num
  rw [e64] at h1 h2 h3 h4 h5 h6 h7 h9 h10
  rw [e32] at h8
  simp only [ForestParams.read, readUnsigned_objBytes _ _ _ _ _ _ h1,
    readUnsigned_objBytes _ _ _ _ _ _ h2, readUnsigned_objBytes _ _ _ _ _ _ h3,
    readUnsigned_objBytes _ _ _ _ _ _ h4, readUnsigned_objBytes _ _ _ _ _ _ h5,
    readUnsigned_objBytes _ _ _ _ _ _ h6, readUnsigned_objBytes _ _ _ _ _ _ h7,
    readUnsigned_objBytes _ _ _ _ _ _ h8, readUnsigned_objBytes _ _ _ _ _ _ h9,
    readUnsigned_objBytes _ _ _ _ _ _ h10, readInt_objBytes _ _ _ _ _ h11 h12]

/-- Witness for C1: a block with a negative `numScales`, read back over a
block of different content from a stream that continues with two more
bytes. -/
theorem ForestParams.read_write_witness :
    ({ ForestParams.default with n_classes := 4, n_features := 16, numScales := -3 }
      : ForestParams).Valid ∧
    ForestParams.default.read Endian.big (IStream.ofBytes
      ((({ ForestParams.default with n_classes := 4, n_features := 16, numScales := -3 }
        : ForestParams).write Endian.big []).2 ++ [1, 2]))
      = ({ ForestParams.default with n_classes := 4, n_features := 16, numScales := -3 },
          { unread := [1, 2], pos := 80, failbit := false, eofbit := false }) :=
  ⟨by decide, ForestParams.read_write Endian.big _ ForestParams.default [1, 2]
    (IStream.ofBytes _) (by decide) rfl rfl⟩

/-- C2: `write` leaves the block unchanged and appends exactly 80 bytes: the
seven counters as 8-byte unsigned values at offsets 0, 8, …, 48, then
`sample_reduction` in 4 bytes at offset 56, `resolution` and `radius` in 8
bytes each at offsets 60 and 68, and `numScales` as a 4-byte two's-complement
`int` at offset 76, all in the platform's byte order and without padding. -/
theorem ForestParams.write_layout (e : Endian) (p : ForestParams) (os : OStream)
    (hp : p.Valid) :
    (p.write e os).1 = p ∧
    ∃ out : List Byte, (p.write e os).2 = os ++ out ∧ out.length = 80 ∧
      objValue e ((out.drop 0).take 8) = p.n_classes ∧
      objValue e ((out.drop 8).take 8) = p.n_features ∧
      objValue e ((out.drop 16).take 8) = p.n_samples ∧
      objValue e ((out.drop 24).take 8) = p.n_in_bag_samples ∧
      objValue e ((out.drop 32).take 8) = p.max_depth ∧
      objValue e ((out.drop 40).take 8) = p.n_trees ∧
      objValue e ((out.drop 48).take 8) = p.min_samples_per_node ∧
      objValue e ((out.drop 56).take 4) = p.sample_reduction ∧
      objValue e ((out.drop 60).take 8) = p.resolution ∧
      objValue e ((out.drop 68).take 8) = p.radius ∧
      bitsInt (objValue e ((out.drop 76).take 4)) = p.numScales := by
  obtain ⟨h1, h2, h3, h4, h5, h6, h7, h8, h9, h10, h11, h12⟩ := hp
  have e64 : (2:Nat) ^ 64 = 256 ^ 8 := by norm_num
  have e32 : (2:Nat) ^ 32 = 256 ^ 4 := by norm_num
  rw [e64] at h1 h2 h3 h4 h5 h6 h7 h9 h10
  rw [e32] at h8
  have hb : intBits p.numScales < 256 ^ 4 := by have := intBits_lt p.numScales; omega
  refine ⟨rfl, objBytes e 8 p.n_classes ++ (objBytes e 8 p.n_features ++
    (objBytes e 8 p.n_samples ++ (objBytes e 8 p.n_in_bag_samples ++
    (objBytes e 8 p.max_depth ++ (objBytes e 8 p.n_trees ++
    (objBytes e 8 p.min_samples_per_node ++ (objBytes e 4 p.sample_reduction ++
    (objBytes e 8 p.resolution ++ (objBytes e 8 p.radius ++
    objBytes e 4 (intBits p.numScales)))))))))), ?_, ?_, ?_⟩
  · simp [ForestParams.write, OStream.write]
  · simp [objBytes_length]
  · simp only [List.drop_append_eq_append_drop, List.take_append_eq_append_take,
      objBytes_length, List.drop_of_length_le, List.take_of_length_le, List.drop_zero,
      List.nil_append, List.append_nil, Nat.sub_self, Nat.reduceSub, Nat.reduceLeDiff,
      List.take_nil, List.take_zero, Nat.le_refl, Nat.zero_le]
    rw [objValue_objBytes _ _ _ h1, objValue_objBytes _ _ _ h2, objValue_objBytes _ _ _ h3,
      objValue_objBytes _ _ _ h4, objValue_objBytes _ _ _ h5, objValue_objBytes _ _ _ h6,
      objValue_objBytes _ _ _ h7, objValue_objBytes _ _ _ h8, objValue_objBytes _ _ _ h9,
      objValue_objBytes _ _ _ h10, objValue_objBytes _ _ _ hb, bitsInt_intBits _ h11 h12]
    simp

/-- Witness for C2: the default block written to an empty stream. -/
theorem ForestParams.write_layout_witness :
    ForestParams.default.Valid ∧
    ∃ out : List Byte, (ForestParams.default.write Endian.little []).2 = [] ++ out ∧
      out.length = 80 ∧ objValue Endian.little ((out.drop 40).take 8) = 100 := by
  obtain ⟨_, out, h1, h2, _, _, _, _, _, h3, _⟩ :=
    ForestParams.write_layout Endian.little ForestParams.default [] (by decide)
  exact ⟨by decide, out, h1, h2, h3⟩

/-! ## AxisAlignedSplitter: round trip -/

/-- C3: `AxisAlignedSplitter::write` emits exactly 8 bytes, the feature index
as a 4-byte `int` followed by the threshold's 4-byte pattern; `read` on those
bytes followed by `rest` reconstructs the same feature and threshold,
consumes exactly those 8 bytes, and the reloaded splitter classifies every
feature vector as the original does. -/
theorem AxisAlignedSplitter.splitter_read_write (e : Endian) (s q : AxisAlignedSplitter Float32)
    (rest : List Byte) (is : IStream) (hs : s.Valid) (hg : is.good = true)
    (hu : is.unread = (s.write e []).2 ++ rest) :
    (s.write e []).2.length = 8 ∧
    bitsInt (objValue e ((s.write e []).2.take 4)) = s.feature ∧
    objValue e ((s.write e []).2.drop 4) = s.threshold.bits ∧
    q.read e is = (s, { is with unread := rest, pos := is.pos + 8 }) ∧
    ∀ v : List Float32, (q.read e is).1.classify_sample v = s.classify_sample v := by
  obtain ⟨u, pos, f, eo⟩ := is
  obtain ⟨h1, h2, h3⟩ := hs
  simp only [IStream.good, Bool.and_eq_true, Bool.not_eq_true'] at hg
  obtain ⟨rfl, rfl⟩ := hg
  have e32 : (2:Nat) ^ 32 = 256 ^ 4 := by norm_num
  rw [e32] at h3
  have hb : intBits s.feature < 256 ^ 4 := by have := intBits_lt s.feature; omega
  have hw : (s.write e []).2 = objBytes e 4 (intBits s.feature) ++ objBytes e 4 s.threshold.bits := by
    simp [AxisAlignedSplitter.write, OStream.write]
  rw [hw] at hu ⊢
  simp only [List.append_assoc] at hu
  subst hu
  have hr : q.read e ⟨objBytes e 4 (intBits s.feature) ++ (objBytes e 4 s.threshold.bits ++ rest),
      pos, false, false⟩ = (s, ⟨rest, pos + 8, false, false⟩) := by
    simp only [AxisAlignedSplitter.read, readInt_objBytes _ _ _ _ _ h1 h2,
      readUnsigned_objBytes _ _ _ _ _ _ h3]
  refine ⟨by simp [objBytes_length], ?_, ?_, hr, ?_⟩
  · rw [List.take_left' (objBytes_length _ _ _), objValue_objBytes _ _ _ hb,
      bitsInt_intBits _ h1 h2]
  · rw [List.drop_left' (objBytes_length _ _ _), objValue_objBytes _ _ _ h3]
  · intro v
    rw [hr]

/-- Witness for C3: feature 3 with threshold `1.0f`, read back over a
default-constructed splitter. -/
theorem AxisAlignedSplitter.splitter_read_write_witness :
    (⟨3, ⟨0x3F800000⟩⟩ : AxisAlignedSplitter Float32).Valid ∧
    (AxisAlignedSplitter.read Endian.little ⟨-1, ⟨0xBF800000⟩⟩ (IStream.ofBytes
      (((⟨3, ⟨0x3F800000⟩⟩ : AxisAlignedSplitter Float32).write Endian.little []).2 ++ [9])))
      = (⟨3, ⟨0x3F800000⟩⟩, { unread := [9], pos := 8, failbit := false, eofbit := false }) :=
  ⟨by decide, (AxisAlignedSplitter.splitter_read_write Endian.little ⟨3, ⟨0x3F800000⟩⟩
    ⟨-1, ⟨0xBF800000⟩⟩ [9] (IStream.ofBytes _) (by decide) rfl rfl).2.2.2.1⟩

/-! ## ForestParams: reading a truncated stream -/

theorem IStream.ofBytes_eq_afterRequests (bs : List Byte) :
    IStream.ofBytes bs = IStream.afterRequests bs 0 := by
  simp [IStream.ofBytes, IStream.afterRequests]

theorem IStream.read_afterRequests_snd (bs old : List Byte) (k n : Nat) :
    ((IStream.afterRequests bs k).read old n).2 = IStream.afterRequests bs (k + n) := by
  unfold IStream.afterRequests IStream.read IStream.good
  by_cases hk : k ≤ bs.length
  · by_cases hn : n ≤ bs.length - k
    · have : k + n ≤ bs.length := by omega
      simp [hk, hn, this, List.drop_drop, Nat.add_comm]
    · have : ¬ k + n ≤ bs.length := by omega
      simp [hk, hn, this]
  · have : ¬ k + n ≤ bs.length := by omega
    simp [hk, this]

theorem IStream.read_afterRequests_fst (bs old : List Byte) (k n : Nat) (ho : old.length = n) :
    ((IStream.afterRequests bs k).read old n).1
      = (bs.drop k ++ old.drop (bs.length - k)).take n := by
  unfold IStream.afterRequests IStream.read IStream.good
  by_cases hk : k ≤ bs.length
  · by_cases hn : n ≤ bs.length - k
    · simp [hk, hn, List.take_append_of_le_length]
    · simp only [hk, hn, if_true, if_false, Bool.not_false, Bool.and_self, List.length_drop]
      rw [List.take_of_length_le]
      simp only [List.length_append, List.length_drop]
      omega
  · have h0 : bs.length - k = 0 := by omega
    have hd : bs.drop k = [] := List.drop_of_length_le (by omega)
    simp [hk, h0, hd, ← ho]

theorem slice_overlay (bs O : List Byte) (k n : Nat) :
    (bs.drop k ++ ((O.drop k).take n).drop (bs.length - k)).take n
      = ((bs ++ O.drop bs.length).drop k).take n := by
  apply List.ext_getElem?
  intro j
  simp only [List.getElem?_take, List.getElem?_append, List.getElem?_drop, List.length_drop]
  by_cases hj : j < n
  · simp only [hj, if_true]
    by_cases h1 : j < bs.length - k
    · have h2 : k + j < bs.length := by omega
      simp [h1, h2]
    · have h2 : ¬ k + j < bs.length := by omega
      have h3 : bs.length - k + (j - (bs.length - k)) < n := by omega
      simp only [h1, h2, h3, if_true, if_false]
      congr 1
      omega
  · simp [hj]

theorem readUnsigned_slice (e : Endian) (n k old : Nat) (bs O : List Byte)
    (h : objBytes e n old = (O.drop k).take n) :
    readUnsigned e n (IStream.afterRequests bs k) old
      = (objValue e (((bs ++ O.drop bs.length).drop k).take n),
          IStream.afterRequests bs (k + n)) := by
  unfold readUnsigned
  simp only [IStream.read_afterRequests_snd,
    IStream.read_afterRequests_fst _ _ _ _ (objBytes_length e n old)]
  rw [h, slice_overlay]

theorem readInt_slice (e : Endian) (k : Nat) (old : Int) (bs O : List Byte)
    (h : objBytes e 4 (intBits old) = (O.drop k).take 4) :
    readInt e (IStream.afterRequests bs k) old
      = (bitsInt (objValue e (((bs ++ O.drop bs.length).drop k).take 4)),
          IStream.afterRequests bs (k + 4)) := by
  unfold readInt
  simp only [IStream.read_afterRequests_snd,
    IStream.read_afterRequests_fst _ _ _ _ (objBytes_length e 4 (intBits old))]
  rw [h, slice_overlay]

theorem slice_cons (T : List Byte) (k n : Nat) :
    (T.drop k).take n ++ T.drop (k + n) = T.drop k := by
  rw [← List.drop_drop, List.take_append_drop]

theorem objBytes_objValue_slice (e : Endian) (T : List Byte) (k n : Nat)
    (h : k + n ≤ T.length) :
    objBytes e n (objValue e ((T.drop k).take n)) = (T.drop k).take n := by
  have hl : ((T.drop k).take n).length = n := by
    simp only [List.length_take, List.length_drop]; omega
  have := objBytes_objValue e ((T.drop k).take n)
  rwa [hl] at this

/-- C4, counterexample: a stream of eight bytes read into the default block.
`read` hands back a block whose `n_classes` comes from the stream while the
other ten fields keep their default values. -/
theorem ForestParams.read_truncated_mixes_fields :
    (IStream.ofBytes [3, 0, 0, 0, 0, 0, 0, 0]).unread.length < 80 ∧
    (ForestParams.default.read Endian.little (IStream.ofBytes [3, 0, 0, 0, 0, 0, 0, 0])).1
      = { ForestParams.default with n_classes := 3 } ∧
    (3 : Nat) ≠ ForestParams.default.n_classes := by
  decide

/-- C4, amended: on a stream holding fewer than 80 bytes `read` returns
normally; the stream is left with `failbit` and `eofbit` raised and all of
its bytes consumed, and the 80-byte image of the block afterwards is the
stream's bytes followed by the corresponding tail of the image of the block
before the call: fields that lie before the cut come from the stream, fields
that lie after it keep their previous values. -/
theorem ForestParams.read_truncated (e : Endian) (q : ForestParams) (bs : List Byte)
    (hlen : bs.length < 80) :
    (q.read e (IStream.ofBytes bs)).2
      = { unread := [], pos := bs.length, failbit := true, eofbit := true } ∧
    (q.read e (IStream.ofBytes bs)).1.Valid ∧
    (((q.read e (IStream.ofBytes bs)).1).write e []).2
      = bs ++ ((q.write e []).2).drop bs.length := by
  have hOlen := ForestParams.write_length e q
  obtain ⟨g1, g2, g3, g4, g5, g6, g7, g8, g9, g10, g11⟩ := ForestParams.write_slices e q
  generalize (q.write e []).2 = O at hOlen g1 g2 g3 g4 g5 g6 g7 g8 g9 g10 g11 ⊢
  have hT : (bs ++ O.drop bs.length).length = 80 := by
    simp only [List.length_append, List.length_drop]; omega
  have hr : q.read e (IStream.ofBytes bs) =
      ({ n_classes := objValue e (((bs ++ O.drop bs.length).drop 0).take 8)
         n_features := objValue e (((bs ++ O.drop bs.length).drop 8).take 8)
         n_samples := objValue e (((bs ++ O.drop bs.length).drop 16).take 8)
         n_in_bag_samples := objValue e (((bs ++ O.drop bs.length).drop 24).take 8)
         max_depth := objValue e (((bs ++ O.drop bs.length).drop 32).take 8)
         n_trees := objValue e (((bs ++ O.drop bs.length).drop 40).take 8)
         min_samples_per_node := objValue e (((bs ++ O.drop bs.length).drop 48).take 8)
         sample_reduction := objValue e (((bs ++ O.drop bs.length).drop 56).take 4)
         resolution := objValue e (((bs ++ O.drop bs.length).drop 60).take 8)
         radius := objValue e (((bs ++ O.drop bs.length).drop 68).take 8)
         numScales := bitsInt (objValue e (((bs ++ O.drop bs.length).drop 76).take 4)) },
       IStream.afterRequests bs 80) := by
    rw [IStream.ofBytes_eq_afterRequests]
    simp only [ForestParams.read]
    rw [readUnsigned_slice e 8 0 _ bs O g1, readUnsigned_slice e 8 8 _ bs O g2,
      readUnsigned_slice e 8 16 _ bs O g3, readUnsigned_slice e 8 24 _ bs O g4,
      readUnsigned_slice e 8 32 _ bs O g5, readUnsigned_slice e 8 40 _ bs O g6,
      readUnsigned_slice e 8 48 _ bs O g7, readUnsigned_slice e 4 56 _ bs O g8,
      readUnsigned_slice e 8 60 _ bs O g9, readUnsigned_slice e 8 68 _ bs O g10,
      readInt_slice e 76 _ bs O g11]
  rw [hr]
  generalize bs ++ O.drop bs.length = T at hT
  have v8 : ∀ k, k + 8 ≤ 80 → objValue e ((T.drop k).take 8) < 2 ^ 64 := by
    intro k hk
    have h := objValue_lt e ((T.drop k).take 8)
    have hl : ((T.drop k).take 8).length = 8 := by
      simp only [List.length_take, List.length_drop]; omega
    rw [hl] at h
    norm_num at h ⊢
    exact h
  have v4 : ∀ k, k + 4 ≤ 80 → objValue e ((T.drop k).take 4) < 2 ^ 32 := by
    intro k hk
    have h := objValue_lt e ((T.drop k).take 4)
    have hl : ((T.drop k).take 4).length = 4 := by
      simp only [List.length_take, List.length_drop]; omega
    rw [hl] at h
    norm_num at h ⊢
    exact h
  refine ⟨?_, ?_, ?_⟩
  · simp only [IStream.afterRequests]
    rw [if_neg (by omega)]
  · refine ⟨v8 0 (by omega), v8 8 (by omega), v8 16 (by omega), v8 24 (by omega),
      v8 32 (by omega), v8 40 (by omega), v8 48 (by omega), v4 56 (by omega),
      v8 60 (by omega), v8 68 (by omega), ?_, ?_⟩
    · have := v4 76 (by omega)
      simp only [bitsInt]
      split_ifs <;> omega
    · have := v4 76 (by omega)
      simp only [bitsInt]
      split_ifs <;> omega
  · rw [ForestParams.write_snd]
    simp only
    rw [intBits_bitsInt _ (v4 76 (by omega))]
    rw [objBytes_objValue_slice e T 0 8 (by omega), objBytes_objValue_slice e T 8 8 (by omega),
      objBytes_objValue_slice e T 16 8 (by omega), objBytes_objValue_slice e T 24 8 (by omega),
      objBytes_objValue_slice e T 32 8 (by omega), objBytes_objValue_slice e T 40 8 (by omega),
      objBytes_objValue_slice e T 48 8 (by omega), objBytes_objValue_slice e T 56 4 (by omega),
      objBytes_objValue_slice e T 60 8 (by omega), objBytes_objValue_slice e T 68 8 (by omega),
      objBytes_objValue_slice e T 76 4 (by omega)]
    have e11 : (T.drop 76).take 4 = T.drop 76 :=
      List.take_of_length_le (by simp only [List.length_drop]; omega)
    rw [e11, slice_cons T 68 8, slice_cons T 60 8, slice_cons T 56 4, slice_cons T 48 8,
      slice_cons T 40 8, slice_cons T 32 8, slice_cons T 24 8, slice_cons T 16 8,
      slice_cons T 8 8, slice_cons T 0 8, List.drop_zero]

/-- Witness for C4 (amended): eight bytes read into the default block. -/
theorem ForestParams.read_truncated_witness :
    ([3, 0, 0, 0, 0, 0, 0, 0] : List Byte).length < 80 ∧
    (ForestParams.default.read Endian.little (IStream.ofBytes [3, 0, 0, 0, 0, 0, 0, 0])).2
      = { unread := [], pos := 8, failbit := true, eofbit := true } :=
  ⟨by decide, (ForestParams.read_truncated Endian.little ForestParams.default
    [3, 0, 0, 0, 0, 0, 0, 0] (by decide)).1⟩

/-! ## QuadraticSplitter: the value of `map_sample` -/

theorem getElem?_eq_some_getD {α : Type} (l : List α) (i : Nat) (d : α) (h : i < l.length) :
    l[i]? = some (l.getD i d) := by
  rw [List.getD_eq_getElem?_getD, List.getElem?_eq_getElem h]
  rfl

theorem bind_of_eq_some {β γ : Type} (o : Option β) (g : β → Option γ) (y : β)
    (h : o = some y) : o.bind g = g y := by
  subst h; rfl

theorem forLoop_linear_part {α : Type} [Semiring α] (w v : List α) (k i0 : Nat) (r0 : α)
    (hw : i0 + k ≤ w.length) (hv : i0 + k ≤ v.length) :
    forLoop (fun i_feature result =>
        (w[i_feature]?).bind fun wi =>
        (v[i_feature]?).bind fun vi =>
        some (result + wi * vi)) k i0 r0
      = some (r0 + ∑ j in Finset.range k, w.getD (i0 + j) 0 * v.getD (i0 + j) 0) := by
  induction k generalizing i0 r0 with
  | zero => simp [forLoop]
  | succ k ih =>
    rw [forLoop]
    refine (bind_of_eq_some _ _ (r0 + w.getD i0 0 * v.getD i0 0) ?_).trans ?_
    · simp only [getElem?_eq_some_getD w i0 0 (by omega), getElem?_eq_some_getD v i0 0 (by omega),
        Option.some_bind]
    · rw [ih (i0 + 1) _ (by omega) (by omega), Finset.sum_range_succ', add_assoc]
      congr 2
      rw [add_comm]
      congr 1
      apply Finset.sum_congr rfl
      intro j _
      rw [show i0 + 1 + j = i0 + (j + 1) by omega]

theorem forLoop_inner {α : Type} [Semiring α] (w v : List α) (i1 k j0 c : Nat) (r : α)
    (hi : i1 < v.length) (hw : c + k ≤ w.length) (hv : j0 + k ≤ v.length)
    (hb : c + k < 2 ^ 31) :
    forLoop (fun i_2 (st : α × Nat) =>
        (w[st.2]?).bind fun wk =>
        (v[i1]?).bind fun v1 =>
        (v[i_2]?).bind fun v2 =>
        if st.2 + 1 < 2 ^ 31 then some (st.1 + wk * v1 * v2, st.2 + 1) else none) k j0 (r, c)
      = some (r + ∑ j in Finset.range k, w.getD (c + j) 0 * v.getD i1 0 * v.getD (j0 + j) 0,
          c + k) := by
  induction k generalizing j0 c r with
  | zero => simp [forLoop]
  | succ k ih =>
    rw [forLoop]
    have hc : c + 1 < 2 ^ 31 := by omega
    refine (bind_of_eq_some _ _ (r + w.getD c 0 * v.getD i1 0 * v.getD j0 0, c + 1) ?_).trans ?_
    · simp only [getElem?_eq_some_getD w c 0 (by omega), getElem?_eq_some_getD v j0 0 (by omega),
        getElem?_eq_some_getD v i1 0 hi, Option.some_bind, hc, if_true]
    · rw [ih (j0 + 1) (c + 1) _ (by omega) (by omega) (by omega), Finset.sum_range_succ',
        add_assoc]
      congr 2
      · congr 1
        rw [add_comm]
        congr 1
        apply Finset.sum_congr rfl
        intro j _
        rw [show c + 1 + j = c + (j + 1) by omega, show j0 + 1 + j = j0 + (j + 1) by omega]
      · omega

theorem forLoop_inner_overflow {α : Type} [Semiring α] (w v : List α) (i1 k j0 c : Nat) (r : α)
    (hi : i1 < v.length) (hw : c + k ≤ w.length) (hv : j0 + k ≤ v.length)
    (hc : c < 2 ^ 31) (hb : 2 ^ 31 ≤ c + k) :
    forLoop (fun i_2 (st : α × Nat) =>
        (w[st.2]?).bind fun wk =>
        (v[i1]?).bind fun v1 =>
        (v[i_2]?).bind fun v2 =>
        if st.2 + 1 < 2 ^ 31 then some (st.1 + wk * v1 * v2, st.2 + 1) else none) k j0 (r, c)
      = none := by
  induction k generalizing j0 c r with
  | zero => omega
  | succ k ih =>
    rw [forLoop]
    by_cases hc1 : c + 1 < 2 ^ 31
    · refine (bind_of_eq_some _ _ (r + w.getD c 0 * v.getD i1 0 * v.getD j0 0, c + 1) ?_).trans ?_
      · simp only [getElem?_eq_some_getD w c 0 (by omega),
          getElem?_eq_some_getD v j0 0 (by omega), getElem?_eq_some_getD v i1 0 hi,
          Option.some_bind, hc1, if_true]
      · exact ih (j0 + 1) (c + 1) _ (by omega) (by omega) hc1 (by omega)
    · simp only [getElem?_eq_some_getD w c 0 (by omega), getElem?_eq_some_getD v j0 0 (by omega),
        getElem?_eq_some_getD v i1 0 hi, Option.some_bind, hc1, if_false, Option.none_bind]

theorem forLoop_outer {α : Type} [Semiring α] (w v : List α) (F k i0 c : Nat) (r : α)
    (hF : F ≤ v.length) (hw : c + k * F ≤ w.length) (hv : i0 + k ≤ v.length)
    (hb : c + k * F < 2 ^ 31) :
    forLoop (fun i_1 (st : α × Nat) =>
        forUpTo (F : Int) (fun i_2 (st : α × Nat) =>
          (w[st.2]?).bind fun wk =>
          (v[i_1]?).bind fun v1 =>
          (v[i_2]?).bind fun v2 =>
          if st.2 + 1 < 2 ^ 31 then some (st.1 + wk * v1 * v2, st.2 + 1) else none) st)
        k i0 (r, c)
      = some (r + ∑ i in Finset.range k, ∑ j in Finset.range F,
            w.getD (c + i * F + j) 0 * v.getD (i0 + i) 0 * v.getD j 0,
          c + k * F) := by
  induction k generalizing i0 c r with
  | zero => simp [forLoop]
  | succ k ih =>
    have hmul : (k + 1) * F = F + k * F := by ring
    rw [forLoop]
    refine (bind_of_eq_some _ _
      (r + ∑ j in Finset.range F, w.getD (c + j) 0 * v.getD i0 0 * v.getD j 0, c + F) ?_).trans ?_
    · simp only [forUpTo, Int.toNat_ofNat]
      rw [forLoop_inner w v i0 F 0 c r (by omega) (by omega) (by omega) (by omega)]
      simp
    · rw [ih (i0 + 1) (c + F) _ (by omega) (by omega) (by omega), Finset.sum_range_succ',
        add_assoc]
      congr 2
      · congr 1
        rw [add_comm]
        congr 1
        · apply Finset.sum_congr rfl
          intro i _
          apply Finset.sum_congr rfl
          intro j _
          rw [show c + F + i * F = c + (i + 1) * F by ring, show i0 + 1 + i = i0 + (i + 1) by omega]
        · simp
      · omega

theorem forLoop_outer_overflow {α : Type} [Semiring α] (w v : List α) (F k i0 c : Nat) (r : α)
    (hF : F ≤ v.length) (hw : c + k * F ≤ w.length) (hv : i0 + k ≤ v.length)
    (hc : c < 2 ^ 31) (hb : 2 ^ 31 ≤ c + k * F) :
    forLoop (fun i_1 (st : α × Nat) =>
        forUpTo (F : Int) (fun i_2 (st : α × Nat) =>
          (w[st.2]?).bind fun wk =>
          (v[i_1]?).bind fun v1 =>
          (v[i_2]?).bind fun v2 =>
          if st.2 + 1 < 2 ^ 31 then some (st.1 + wk * v1 * v2, st.2 + 1) else none) st)
        k i0 (r, c)
      = none := by
  induction k generalizing i0 c r with
  | zero => omega
  | succ k ih =>
    have hmul : (k + 1) * F = F + k * F := by ring
    rw [forLoop]
    by_cases hcF : c + F < 2 ^ 31
    · refine (bind_of_eq_some _ _
        (r + ∑ j in Finset.range F, w.getD (c + j) 0 * v.getD i0 0 * v.getD j 0, c + F) ?_).trans
        ?_
      · simp only [forUpTo, Int.toNat_ofNat]
        rw [forLoop_inner w v i0 F 0 c r (by omega) (by omega) (by omega) hcF]
        simp
      · exact ih (i0 + 1) (c + F) _ (by omega) (by omega) hcF (by omega)
    · have hin := forLoop_inner_overflow w v i0 F 0 c r (by omega) (by omega) (by omega) hc
        (by omega)
      simp only [forUpTo, Int.toNat_ofNat, hin, Option.none_bind]

theorem QuadraticSplitter.map_sample_value {α : Type} [Semiring α] (F : Nat)
    (s : QuadraticSplitter α) (v : List α) (hn : s.n_features = F)
    (hw : s.w.length = F + F * F) (hv : v.length = F) (hb : F + F * F < 2 ^ 31) :
    s.map_sample v = some
      (∑ i in Finset.range F, s.w.getD i 0 * v.getD i 0 +
        ∑ i in Finset.range F, ∑ j in Finset.range F,
          s.w.getD (F + i * F + j) 0 * v.getD i 0 * v.getD j 0) := by
  unfold QuadraticSplitter.map_sample
  rw [hn]
  simp only [forUpTo, Int.toNat_ofNat]
  rw [forLoop_linear_part s.w v F 0 0 (by omega) (by omega)]
  simp only [Option.some_bind]
  have := forLoop_outer s.w v F F 0 F (0 + ∑ j in Finset.range F, s.w.getD (0 + j) 0 * v.getD (0 + j) 0)
    (by omega) (by omega) (by omega) hb
  simp only [forUpTo, Int.toNat_ofNat] at this
  rw [this]
  simp

theorem QuadraticSplitter.map_sample_overflow {α : Type} [Semiring α] (F : Nat)
    (s : QuadraticSplitter α) (v : List α) (hn : s.n_features = F)
    (hw : s.w.length = F + F * F) (hv : v.length = F) (hF : F < 2 ^ 31)
    (hb : 2 ^ 31 ≤ F + F * F) :
    s.map_sample v = none := by
  unfold QuadraticSplitter.map_sample
  rw [hn]
  simp only [forUpTo, Int.toNat_ofNat]
  rw [forLoop_linear_part s.w v F 0 0 (by omega) (by omega)]
  simp only [Option.some_bind]
  have := forLoop_outer_overflow s.w v F F 0 F
    (0 + ∑ j in Finset.range F, s.w.getD (0 + j) 0 * v.getD (0 + j) 0)
    (by omega) (by omega) (by omega) hF hb
  simp only [forUpTo, Int.toNat_ofNat] at this
  rw [this]
  rfl

/-- C5, counterexample: with `F = 46341` features, `F + F * F = 2147534622`
weights and `F` feature values, the running weight index of `map_sample`
would have to pass `INT_MAX = 2147483647`; the call is undefined and yields
no value. -/
theorem QuadraticSplitter.map_sample_index_overflow :
    (⟨46341, List.replicate (46341 + 46341 * 46341) 0, 0⟩ : QuadraticSplitter Int).w.length
      = 46341 + 46341 * 46341 ∧
    (List.replicate 46341 (0 : Int)).length = 46341 ∧
    (⟨46341, List.replicate (46341 + 46341 * 46341) 0, 0⟩ : QuadraticSplitter Int).map_sample
      (List.replicate 46341 0) = none :=
  ⟨List.length_replicate _ _, List.length_replicate _ _,
    QuadraticSplitter.map_sample_overflow 46341 _ _ rfl (List.length_replicate _ _)
      (List.length_replicate _ _) (by norm_num) (by norm_num)⟩

/-- C5, amended: with `n_features = F`, `F + F * F` weights and `F` feature
values, where `F + F * F ≤ INT_MAX` (that is `F ≤ 46340`), `map_sample`
computes, in exact arithmetic, the sum of `w[i] * v[i]` over `i < F` plus the
sum of `w[F + i * F + j] * v[i] * v[j]` over all `i, j < F`. -/
theorem QuadraticSplitter.map_sample_eq {α : Type} [Semiring α] (F : Nat)
    (s : QuadraticSplitter α) (v : List α) (hn : s.n_features = F)
    (hw : s.w.length = F + F * F) (hv : v.length = F) (hb : F + F * F < 2 ^ 31) :
    s.map_sample v = some
      (∑ i in Finset.range F, s.w.getD i 0 * v.getD i 0 +
        ∑ i in Finset.range F, ∑ j in Finset.range F,
          s.w.getD (F + i * F + j) 0 * v.getD i 0 * v.getD j 0) :=
  QuadraticSplitter.map_sample_value F s v hn hw hv hb

/-- Witness for C5 (amended): two features over the integers. -/
theorem QuadraticSplitter.map_sample_eq_witness :
    (⟨2, [1, 10, 100, 1000, 10000, 100000], 0⟩ : QuadraticSplitter Int).map_sample [2, 3]
      = some (1 * 2 + 10 * 3 + (100 * 2 * 2 + 1000 * 2 * 3 + (10000 * 3 * 2 + 100000 * 3 * 3))) :=
  (QuadraticSplitter.map_sample_eq 2 ⟨2, [1, 10, 100, 1000, 10000, 100000], 0⟩ [2, 3]
    rfl rfl rfl (by decide)).trans (by decide)

/-! ## AxisAlignedSplitter and LinearSplitter: `classify_sample` -/

/-- C6: for a feature index `f` inside the feature vector `v`,
`classify_sample` returns true exactly when `v[f] > threshold`, and false
otherwise; a sample whose value equals the threshold (or compares `<=` to
it) is classified false. -/
theorem AxisAlignedSplitter.classify_sample_spec {α : Type} [Preorder α]
    [DecidableRel ((· < ·) : α → α → Prop)] (s : AxisAlignedSplitter α) (v : List α)
    (h0 : 0 ≤ s.feature) (h1 : s.feature < v.length) :
    ∃ x, v[s.feature.toNat]? = some x ∧
      (s.classify_sample v = some true ↔ s.threshold < x) ∧
      (s.classify_sample v = some false ↔ ¬ s.threshold < x) ∧
      (x = s.threshold → s.classify_sample v = some false) ∧
      (x ≤ s.threshold → s.classify_sample v = some false) := by
  have hlt : s.feature.toNat < v.length := by omega
  refine ⟨v[s.feature.toNat], List.getElem?_eq_getElem hlt, ?_⟩
  have hc : s.classify_sample v = some (decide (s.threshold < v[s.feature.toNat])) := by
    simp [AxisAlignedSplitter.classify_sample, idx?, h0, List.getElem?_eq_getElem hlt]
  rw [hc]
  refine ⟨by simp, by simp, ?_, ?_⟩
  · intro h
    simp [h]
  · intro h
    simp [not_lt_of_le h]

/-- Witness for C6: threshold `1.0f` and a sample whose feature 1 is `1.0f`. -/
theorem AxisAlignedSplitter.classify_sample_spec_witness :
    (0 : Int) ≤ (⟨1, ⟨0x3F800000⟩⟩ : AxisAlignedSplitter Float32).feature ∧
    (⟨1, ⟨0x3F800000⟩⟩ : AxisAlignedSplitter Float32).classify_sample [⟨0⟩, ⟨0x3F800000⟩]
      = some false := by
  obtain ⟨x, hx, _, _, h, _⟩ := AxisAlignedSplitter.classify_sample_spec
    (⟨1, ⟨0x3F800000⟩⟩ : AxisAlignedSplitter Float32) [⟨0⟩, ⟨0x3F800000⟩]
    (by decide) (by decide)
  have hx2 : x = ⟨0x3F800000⟩ := (Option.some.inj hx).symm
  exact ⟨by decide, h hx2⟩

theorem inner_product_eq {α : Type} [Semiring α] (w v : List α) (init : α)
    (h : w.length ≤ v.length) :
    inner_product w v init
      = some (init + ∑ i in Finset.range w.length, w.getD i 0 * v.getD i 0) := by
  induction w generalizing v init with
  | nil => simp [inner_product]
  | cons a w ih =>
    cases v with
    | nil => simp at h
    | cons b v =>
      simp only [List.length_cons, Nat.add_le_add_iff_right] at h
      rw [inner_product, ih v _ h, List.length_cons, Finset.sum_range_succ', add_assoc]
      congr 2
      rw [add_comm]
      simp

theorem DataView2D.row_pointer_length {α : Type} (m : DataView2D α) (r : Int) (row : List α)
    (hwf : m.WF) (h : m.row_pointer r = some row) : row.length = m.cols := by
  unfold DataView2D.row_pointer at h
  split_ifs at h with hr
  simp only [Option.some.injEq] at h
  subst h
  unfold DataView2D.WF at hwf
  simp only [List.length_take, List.length_drop, hwf]
  have h1 : r.toNat + 1 ≤ m.rows := by omega
  have h2 : (r.toNat + 1) * m.cols ≤ m.rows * m.cols := Nat.mul_le_mul_right _ h1
  have h3 : (r.toNat + 1) * m.cols = r.toNat * m.cols + m.cols := by ring
  omega

theorem DataView2D.get_eq_row {α : Type} (m : DataView2D α) (r c : Int) :
    m.get r c = (m.row_pointer r).bind fun row => idx? row c := by
  unfold DataView2D.get DataView2D.row_pointer idx?
  by_cases hr : 0 ≤ r ∧ r < m.rows
  · by_cases hc : 0 ≤ c
    · by_cases hc2 : c < m.cols
      · have : c.toNat < m.cols := by omega
        simp [hr, hc, hc2, List.getElem?_take, this, List.getElem?_drop]
      · have : ¬ c.toNat < m.cols := by omega
        simp [hr, hc, hc2, List.getElem?_take, this]
    · simp [hr, hc]
  · have : ¬ (0 ≤ r ∧ r < ↑m.rows ∧ 0 ≤ c ∧ c < ↑m.cols) := fun h => hr ⟨h.1, h.2.1⟩
    rw [if_neg this, if_neg hr]
    rfl

theorem map_points_forLoop {α : Type} (fval : Int → Option α) (labels : DataView2D Int)
    (sample_idxes : List Int) (k i0 : Nat) (data_points : FeatureClassData α)
    (hbuf : i0 + k ≤ data_points.length)
    (hrows : ∀ i, i0 ≤ i → i < i0 + k → ∃ r c x,
      sample_idxes[i]? = some r ∧ labels.get r 0 = some c ∧ fval r = some x) :
    ∃ out, forLoop (fun i_sample data =>
        (sample_idxes[i_sample]?).bind fun sample_idx =>
        (labels.get sample_idx 0).bind fun sample_class =>
        (fval sample_idx).bind fun sample_fval =>
        if i_sample < data.length then some (data.set i_sample (sample_fval, sample_class))
        else none) k i0 data_points = some out ∧
      out.length = data_points.length ∧
      (∀ i, i0 ≤ i → i < i0 + k → ∃ r c x,
        sample_idxes[i]? = some r ∧ labels.get r 0 = some c ∧ fval r = some x ∧
        out[i]? = some (x, c)) ∧
      ∀ j, (j < i0 ∨ i0 + k ≤ j) → out[j]? = data_points[j]? := by
  induction k generalizing i0 data_points with
  | zero =>
    refine ⟨data_points, rfl, rfl, ?_, fun _ _ => rfl⟩
    intro i h1 h2
    omega
  | succ k ih =>
    obtain ⟨r, c, x, hr, hc, hx⟩ := hrows i0 (le_refl _) (by omega)
    have hlen : i0 < data_points.length := by omega
    obtain ⟨out, ho, hol, hin, hout⟩ := ih (i0 + 1) (data_points.set i0 (x, c))
      (by simp only [List.length_set]; omega)
      (fun i h1 h2 => hrows i (by omega) (by omega))
    refine ⟨out, ?_, ?_, ?_, ?_⟩
    · rw [forLoop]
      refine (bind_of_eq_some _ _ (data_points.set i0 (x, c)) ?_).trans ho
      simp only [hr, hc, hx, Option.some_bind, hlen, if_true]
    · rw [hol, List.length_set]
    · intro i h1 h2
      by_cases hi : i = i0
      · subst hi
        refine ⟨r, c, x, hr, hc, hx, ?_⟩
        rw [hout i (Or.inl (by omega)), List.getElem?_set_self hlen]
      · exact hin i (by omega) (by omega)
    · intro j hj
      rw [hout j (by omega), List.getElem?_set_ne (by omega)]

theorem map_points_loop_spec {α : Type} (fval : Int → Option α) (labels : DataView2D Int)
    (sample_idxes : List Int) (n : Nat) (data_points : FeatureClassData α)
    (hbuf : n ≤ data_points.length)
    (hrows : ∀ i, i < n → ∃ r c x,
      sample_idxes[i]? = some r ∧ labels.get r 0 = some c ∧ fval r = some x) :
    ∃ out, map_points_loop fval labels sample_idxes (n : Int) data_points = some out ∧
      out.length = data_points.length ∧
      (∀ i, i < n → ∃ r c x,
        sample_idxes[i]? = some r ∧ labels.get r 0 = some c ∧ fval r = some x ∧
        out[i]? = some (x, c)) ∧
      ∀ j, n ≤ j → out[j]? = data_points[j]? := by
  obtain ⟨out, ho, hol, hin, hout⟩ := map_points_forLoop fval labels sample_idxes n 0
    data_points (by omega) (fun i _ h2 => hrows i (by omega))
  refine ⟨out, ?_, hol, ?_, ?_⟩
  · simpa only [map_points_loop, forUpTo, Int.toNat_ofNat] using ho
  · intro i hi
    exact hin i (Nat.zero_le _) (by omega)
  · intro j hj
    exact hout j (Or.inr (by omega))

theorem map_points_rows_spec {α : Type} (scalar : List α → Option α) (samples : DataView2D α)
    (labels : DataView2D Int) (sample_idxes : List Int) (n : Nat)
    (data_points : FeatureClassData α) (hbuf : n ≤ data_points.length)
    (hrows : ∀ i, i < n → ∃ r row c x, sample_idxes[i]? = some r ∧
      samples.row_pointer r = some row ∧ labels.get r 0 = some c ∧ scalar row = some x) :
    ∃ out, map_points_loop (fun sample_idx => (samples.row_pointer sample_idx).bind scalar)
        labels sample_idxes (n : Int) data_points = some out ∧
      out.length = data_points.length ∧
      (∀ i, i < n → ∃ r row c x, sample_idxes[i]? = some r ∧
        samples.row_pointer r = some row ∧ labels.get r 0 = some c ∧ scalar row = some x ∧
        out[i]? = some (x, c)) ∧
      ∀ j, n ≤ j → out[j]? = data_points[j]? := by
  obtain ⟨out, ho, hol, hin, hout⟩ := map_points_loop_spec
    (fun sample_idx => (samples.row_pointer sample_idx).bind scalar) labels sample_idxes n
    data_points hbuf (by
      intro i hi
      obtain ⟨r, row, c, x, h1, h2, h3, h4⟩ := hrows i hi
      exact ⟨r, c, x, h1, h3, by simp only [h2, Option.some_bind, h4]⟩)
  refine ⟨out, ho, hol, ?_, hout⟩
  intro i hi
  obtain ⟨r, row, c, x, h1, h2, h3, h4⟩ := hrows i hi
  obtain ⟨r2, c2, x2, g1, g2, g3, g4⟩ := hin i hi
  rw [h1] at g1
  cases g1
  rw [h3] at g2
  cases g2
  simp only [h2, Option.some_bind, h4] at g3
  cases g3
  exact ⟨r, row, c, x, h1, h2, h3, h4, g4⟩

theorem inner_product_foldl {α : Type} [Add α] [Mul α] (d : α) (w v : List α) (init : α)
    (h : w.length ≤ v.length) :
    inner_product w v init
      = some ((List.range w.length).foldl (fun acc i => acc + w.getD i d * v.getD i d) init) := by
  induction w generalizing v init with
  | nil => rfl
  | cons a w ih =>
    cases v with
    | nil => simp at h
    | cons b v =>
      simp only [List.length_cons, Nat.add_le_add_iff_right] at h
      rw [inner_product, ih v _ h, List.length_cons, List.range_succ_eq_map, List.foldl_cons,
        List.foldl_map]
      rfl

theorem foldl_range_eq_sum {β : Type} [Semiring β] (f : Nat → β) (n : Nat) (init : β) :
    (List.range n).foldl (fun acc i => acc + f i) init = init + ∑ i in Finset.range n, f i := by
  induction n with
  | zero => simp
  | succ n ih =>
    rw [List.range_succ, List.foldl_append, ih, Finset.sum_range_succ, ← add_assoc]
    rfl

set_option maxRecDepth 100000 in
set_option exponentiation.threshold 1000 in
/-- C7, counterexample: the weights `16777216.0f, 1.0f`, the threshold
`16777216.0f` and the feature vector `1.0f, 1.0f`.  The dot product of the
values is `16777217`, which is greater than the threshold, but
`classify_sample` returns false: the float sum `16777216.0f + 1.0f` rounds to
`16777216.0f`. -/
theorem LinearSplitter.classify_sample_rounds :
    (⟨0x4B800000⟩ : Float32).toRat = 16777216 ∧ (⟨0x3F800000⟩ : Float32).toRat = 1 ∧
    (⟨0x4B800000⟩ : Float32).toRat
      < (⟨0x4B800000⟩ : Float32).toRat * (⟨0x3F800000⟩ : Float32).toRat
        + (⟨0x3F800000⟩ : Float32).toRat * (⟨0x3F800000⟩ : Float32).toRat ∧
    (⟨[⟨0x4B800000⟩, ⟨0x3F800000⟩], ⟨0x4B800000⟩⟩ : LinearSplitter Float32).classify_sample
      [⟨0x3F800000⟩, ⟨0x3F800000⟩] = some false := by
  have h1 : (⟨0x4B800000⟩ : Float32).toRat = 16777216 := by
    norm_num [Float32.toRat, Float32.signedMag, Float32.signBit, Float32.mag,
      Float32.expField, Float32.fracField]
  have h2 : (⟨0x3F800000⟩ : Float32).toRat = 1 := by
    norm_num [Float32.toRat, Float32.signedMag, Float32.signBit, Float32.mag,
      Float32.expField, Float32.fracField]
  refine ⟨h1, h2, ?_, by decide⟩
  rw [h1, h2]
  norm_num

/-- C7, amended: for a feature vector at least as long as the weight vector,
`classify_sample` returns true exactly when the value that
`std::inner_product` computes is strictly greater than the threshold: the
value obtained from `0` by adding `w[i] * v[i]` for `i = 0, 1, …` in this
order, every product and every sum in the arithmetic of the feature type
(for `float`, each one rounded).  The scalar value that `map_points` records
for a listed row is that same value for the row.  In exact arithmetic the
value is the dot product of `w` with the vector. -/
theorem LinearSplitter.classify_sample_accumulated {α : Type} [Zero α] [Add α] [Mul α] [LT α]
    [DecidableRel ((· < ·) : α → α → Prop)] (s : LinearSplitter α) (v : List α)
    (hlen : s.w.length ≤ v.length) :
    (s.classify_sample v = some true ↔
      s.threshold
        < (List.range s.w.length).foldl (fun acc i => acc + s.w.getD i 0 * v.getD i 0) 0) ∧
    (s.classify_sample v = some false ↔
      ¬ s.threshold
        < (List.range s.w.length).foldl (fun acc i => acc + s.w.getD i 0 * v.getD i 0) 0) ∧
    (∀ (samples : DataView2D α) (labels : DataView2D Int) (sample_idxes : List Int) (n : Nat)
      (data_points : FeatureClassData α), n ≤ data_points.length →
      (∀ i, i < n → ∃ r row c, sample_idxes[i]? = some r ∧
        samples.row_pointer r = some row ∧ labels.get r 0 = some c ∧
        s.w.length ≤ row.length) →
      ∃ out, s.map_points samples labels sample_idxes (n : Int) data_points = some out ∧
        ∀ i, i < n → ∃ r row c, sample_idxes[i]? = some r ∧
          samples.row_pointer r = some row ∧ labels.get r 0 = some c ∧
          out[i]? = some
            ((List.range s.w.length).foldl (fun acc i => acc + s.w.getD i 0 * row.getD i 0) 0,
              c)) ∧
    ∀ (β : Type) [Semiring β] (w u : List β),
      (List.range w.length).foldl (fun acc i => acc + w.getD i 0 * u.getD i 0) 0
        = ∑ i in Finset.range w.length, w.getD i 0 * u.getD i 0 := by
  have hc : s.classify_sample v = some (decide (s.threshold <
      (List.range s.w.length).foldl (fun acc i => acc + s.w.getD i 0 * v.getD i 0) 0)) := by
    simp [LinearSplitter.classify_sample, inner_product_foldl 0 s.w v 0 hlen]
  refine ⟨by rw [hc]; simp, by rw [hc]; simp, ?_, ?_⟩
  · intro samples labels sample_idxes n data_points hbuf hrows
    obtain ⟨out, ho, _, hin, _⟩ := map_points_rows_spec (fun row => inner_product s.w row 0)
      samples labels sample_idxes n data_points hbuf (by
        intro i hi
        obtain ⟨r, row, c, h1, h2, h3, h4⟩ := hrows i hi
        exact ⟨r, row, c, _, h1, h2, h3, inner_product_foldl 0 s.w row 0 h4⟩)
    refine ⟨out, ho, ?_⟩
    intro i hi
    obtain ⟨r, row, c, h1, h2, h3, h4⟩ := hrows i hi
    obtain ⟨r2, row2, c2, x2, g1, g2, g3, g4, g5⟩ := hin i hi
    rw [h1] at g1
    cases g1
    rw [h2] at g2
    cases g2
    rw [h3] at g3
    cases g3
    rw [inner_product_foldl 0 s.w row 0 h4] at g4
    cases g4
    exact ⟨r, row, c, h1, h2, h3, g5⟩
  · intro β _ w u
    rw [foldl_range_eq_sum (fun i => w.getD i 0 * u.getD i 0) w.length 0, zero_add]

set_option maxRecDepth 100000 in
set_option exponentiation.threshold 1000 in
/-- Witness for C7 (amended): the float splitter with weights
`16777216.0f, 1.0f` and threshold `16777216.0f` on the vector `1.0f, 1.0f`,
and its `map_points` on a matrix with that one row. -/
theorem LinearSplitter.classify_sample_accumulated_witness :
    (⟨[⟨0x4B800000⟩, ⟨0x3F800000⟩], ⟨0x4B800000⟩⟩ : LinearSplitter Float32).classify_sample
      [⟨0x3F800000⟩, ⟨0x3F800000⟩] = some false ∧
    ∃ out, (⟨[⟨0x4B800000⟩, ⟨0x3F800000⟩], ⟨0x4B800000⟩⟩ : LinearSplitter Float32).map_points
        ⟨[⟨0x3F800000⟩, ⟨0x3F800000⟩], 1, 2⟩ ⟨[7], 1, 1⟩ [0] 1 [(⟨0⟩, 0)] = some out ∧
      out[0]? = some (⟨0x4B800000⟩, 7) := by
  obtain ⟨_, h2, h3, _⟩ := LinearSplitter.classify_sample_accumulated
    (⟨[⟨0x4B800000⟩, ⟨0x3F800000⟩], ⟨0x4B800000⟩⟩ : LinearSplitter Float32)
    [⟨0x3F800000⟩, ⟨0x3F800000⟩] (by decide)
  refine ⟨h2.2 (by decide), ?_⟩
  obtain ⟨out, ho, hi⟩ := h3 ⟨[⟨0x3F800000⟩, ⟨0x3F800000⟩], 1, 2⟩ ⟨[7], 1, 1⟩ [0] 1
    [(⟨0⟩, 0)] (by decide) (by
      intro i hi
      interval_cases i
      exact ⟨0, [⟨0x3F800000⟩, ⟨0x3F800000⟩], 7, rfl, rfl, rfl, by decide⟩)
  refine ⟨out, ho, ?_⟩
  obtain ⟨r, row, c, g1, g2, g3, g4⟩ := hi 0 (by decide)
  cases g1
  cases g2
  cases g3
  rw [g4]
  decide

/-! ## The three `map_points` members -/

/-- C8: for each of the three kinds of splitter, when the first `n` listed
sample indices name rows of the matrix and of the label vector on which the
splitter's scalar value is defined and the buffer has at least `n` entries,
`map_points` returns a buffer of the same length whose entry `i < n` is the
pair (scalar value on row `sample_idxes[i]`, label of that row), and whose
entries from position `n` on are unchanged. -/
theorem map_points_spec {α : Type} [Zero α] [Add α] [Mul α] (samples : DataView2D α)
    (labels : DataView2D Int) (sample_idxes : List Int) (n : Nat)
    (data_points : FeatureClassData α) (hbuf : n ≤ data_points.length) :
    (∀ s : AxisAlignedSplitter α,
      (∀ i, i < n → ∃ r row c x, sample_idxes[i]? = some r ∧
        samples.row_pointer r = some row ∧ labels.get r 0 = some c ∧
        idx? row s.feature = some x) →
      ∃ out, s.map_points samples labels sample_idxes (n : Int) data_points = some out ∧
        out.length = data_points.length ∧
        (∀ i, i < n → ∃ r row c x, sample_idxes[i]? = some r ∧
          samples.row_pointer r = some row ∧ labels.get r 0 = some c ∧
          idx? row s.feature = some x ∧ out[i]? = some (x, c)) ∧
        ∀ j, n ≤ j → out[j]? = data_points[j]?) ∧
    (∀ s : LinearSplitter α,
      (∀ i, i < n → ∃ r row c x, sample_idxes[i]? = some r ∧
        samples.row_pointer r = some row ∧ labels.get r 0 = some c ∧
        inner_product s.w row 0 = some x) →
      ∃ out, s.map_points samples labels sample_idxes (n : Int) data_points = some out ∧
        out.length = data_points.length ∧
        (∀ i, i < n → ∃ r row c x, sample_idxes[i]? = some r ∧
          samples.row_pointer r = some row ∧ labels.get r 0 = some c ∧
          inner_product s.w row 0 = some x ∧ out[i]? = some (x, c)) ∧
        ∀ j, n ≤ j → out[j]? = data_points[j]?) ∧
    (∀ s : QuadraticSplitter α,
      (∀ i, i < n → ∃ r row c x, sample_idxes[i]? = some r ∧
        samples.row_pointer r = some row ∧ labels.get r 0 = some c ∧
        s.map_sample row = some x) →
      ∃ out, s.map_points samples labels sample_idxes (n : Int) data_points = some out ∧
        out.length = data_points.length ∧
        (∀ i, i < n → ∃ r row c x, sample_idxes[i]? = some r ∧
          samples.row_pointer r = some row ∧ labels.get r 0 = some c ∧
          s.map_sample row = some x ∧ out[i]? = some (x, c)) ∧
        ∀ j, n ≤ j → out[j]? = data_points[j]?) := by
  refine ⟨?_, ?_, ?_⟩
  · intro s hrows
    have := map_points_rows_spec (fun row => idx? row s.feature) samples labels sample_idxes n
      data_points hbuf hrows
    simpa only [AxisAlignedSplitter.map_points, DataView2D.get_eq_row] using this
  · intro s hrows
    exact map_points_rows_spec (fun row => inner_product s.w row 0) samples labels sample_idxes
      n data_points hbuf hrows
  · intro s hrows
    exact map_points_rows_spec s.map_sample samples labels sample_idxes n data_points hbuf hrows

/-- Witness for C8: each kind of splitter on a matrix with two rows, the
second row listed twice, and a buffer with one entry to spare. -/
theorem map_points_spec_witness :
    (⟨1, 0⟩ : AxisAlignedSplitter Int).map_points ⟨[3, 2, 4, 5], 2, 2⟩ ⟨[7, 8], 2, 1⟩
        [1, 1, 0] 3 [(0, 0), (0, 0), (0, 0), (5, 5)] = some [(5, 8), (5, 8), (2, 7), (5, 5)] ∧
    (⟨[1, 2], 0⟩ : LinearSplitter Int).map_points ⟨[3, 2, 4, 5], 2, 2⟩ ⟨[7, 8], 2, 1⟩
        [1, 1, 0] 3 [(0, 0), (0, 0), (0, 0), (5, 5)] = some [(14, 8), (14, 8), (7, 7), (5, 5)] ∧
    (⟨2, [1, 2, 1, 1, 1, 1], 0⟩ : QuadraticSplitter Int).map_points
        ⟨[3, 2, 4, 5], 2, 2⟩ ⟨[7, 8], 2, 1⟩
        [1, 1, 0] 3 [(0, 0), (0, 0), (0, 0), (5, 5)] = some [(95, 8), (95, 8), (32, 7), (5, 5)] ∧
    (∃ out, (⟨1, 0⟩ : AxisAlignedSplitter Int).map_points ⟨[3, 2, 4, 5], 2, 2⟩ ⟨[7, 8], 2, 1⟩
        [1, 1, 0] 3 [(0, 0), (0, 0), (0, 0), (5, 5)] = some out ∧ out.length = 4 ∧
        out[3]? = some (5, 5)) ∧
    (∃ out, (⟨[1, 2], 0⟩ : LinearSplitter Int).map_points ⟨[3, 2, 4, 5], 2, 2⟩ ⟨[7, 8], 2, 1⟩
        [1, 1, 0] 3 [(0, 0), (0, 0), (0, 0), (5, 5)] = some out ∧ out.length = 4 ∧
        out[3]? = some (5, 5)) ∧
    (∃ out, (⟨2, [1, 2, 1, 1, 1, 1], 0⟩ : QuadraticSplitter Int).map_points
        ⟨[3, 2, 4, 5], 2, 2⟩ ⟨[7, 8], 2, 1⟩
        [1, 1, 0] 3 [(0, 0), (0, 0), (0, 0), (5, 5)] = some out ∧ out.length = 4 ∧
        out[3]? = some (5, 5)) := by
  obtain ⟨hA, hL, hQ⟩ := map_points_spec (⟨[3, 2, 4, 5], 2, 2⟩ : DataView2D Int)
    ⟨[7, 8], 2, 1⟩ [1, 1, 0] 3 [(0, 0), (0, 0), (0, 0), (5, 5)] (by decide)
  refine ⟨by decide, by decide, by decide, ?_, ?_, ?_⟩
  · obtain ⟨out, h1, h2, _, h4⟩ := hA ⟨1, 0⟩ (by
      intro i hi
      interval_cases i
      · exact ⟨1, [4, 5], 8, 5, rfl, rfl, rfl, rfl⟩
      · exact ⟨1, [4, 5], 8, 5, rfl, rfl, rfl, rfl⟩
      · exact ⟨0, [3, 2], 7, 2, rfl, rfl, rfl, rfl⟩)
    exact ⟨out, h1, h2, h4 3 (le_refl _)⟩
  · obtain ⟨out, h1, h2, _, h4⟩ := hL ⟨[1, 2], 0⟩ (by
      intro i hi
      interval_cases i
      · exact ⟨1, [4, 5], 8, 14, rfl, rfl, rfl, rfl⟩
      · exact ⟨1, [4, 5], 8, 14, rfl, rfl, rfl, rfl⟩
      · exact ⟨0, [3, 2], 7, 7, rfl, rfl, rfl, rfl⟩)
    exact ⟨out, h1, h2, h4 3 (le_refl _)⟩
  · obtain ⟨out, h1, h2, _, h4⟩ := hQ ⟨2, [1, 2, 1, 1, 1, 1], 0⟩ (by
      intro i hi
      interval_cases i
      · exact ⟨1, [4, 5], 8, 14 + 81, rfl, rfl, rfl, by decide⟩
      · exact ⟨1, [4, 5], 8, 14 + 81, rfl, rfl, rfl, by decide⟩
      · exact ⟨0, [3, 2], 7, 7 + 25, rfl, rfl, rfl, by decide⟩)
    exact ⟨out, h1, h2, h4 3 (le_refl _)⟩

/-! ## The axis-aligned split generator: what `init` selects -/

theorem featureSet_insert_toFinset (s : FeatureSet) (x : Int) :
    (s.insert x).elems.toFinset = insert x s.elems.toFinset := by
  unfold FeatureSet.insert
  split_ifs with h
  · rw [Finset.insert_eq_of_mem (List.mem_toFinset.2 h)]
  · ext a
    simp [or_comm]

theorem featureSet_insert_nodup (s : FeatureSet) (x : Int) (h : s.elems.Nodup) :
    (s.insert x).elems.Nodup := by
  unfold FeatureSet.insert
  split_ifs with hx
  · exact h
  · rw [List.nodup_append]
    refine ⟨h, List.nodup_singleton x, ?_⟩
    intro a ha hb
    simp only [List.mem_singleton] at hb
    subst hb
    exact hx ha

theorem featureSet_insert_size_le (s : FeatureSet) (x : Int) :
    (s.insert x).size ≤ s.size + 1 := by
  unfold FeatureSet.insert FeatureSet.size
  split_ifs <;> simp

theorem featureSet_mem_insert (s : FeatureSet) (x a : Int) (h : a ∈ (s.insert x).elems) :
    a ∈ s.elems ∨ a = x := by
  unfold FeatureSet.insert at h
  split_ifs at h
  · exact Or.inl h
  · simpa using h

theorem UniformIntDist.draw_zero (n : Nat) (hn : 1 ≤ n) (gen : RandomGen) :
    UniformIntDist.draw ⟨0, (n : Int) - 1⟩ gen
      = some (((gen.stream 0 % n : Nat) : Int), ⟨fun i => gen.stream (i + 1)⟩) := by
  unfold UniformIntDist.draw
  have h1 : (0 : Int) ≤ (n : Int) - 1 := by omega
  have h2 : ((n : Int) - 1 - 0 + 1).toNat = n := by omega
  simp only [h1, if_true, h2, RandomGen.next, zero_add]

theorem image_range_succ_shift (f : Nat → Int) (k : Nat) :
    (Finset.range (k + 1)).image f
      = insert (f 0) ((Finset.range k).image fun i => f (i + 1)) := by
  ext a
  simp only [Finset.mem_image, Finset.mem_range, Finset.mem_insert]
  constructor
  · rintro ⟨i, hi, rfl⟩
    cases i with
    | zero => exact Or.inl rfl
    | succ i => exact Or.inr ⟨i, by omega, rfl⟩
  · rintro (rfl | ⟨i, hi, rfl⟩)
    · exact ⟨0, by omega, rfl⟩
    · exact ⟨i + 1, by omega, rfl⟩

theorem AxisAlignedRandomSplitGenerator.init_loop_some (n target : Nat) (hn : 1 ≤ n)
    (fuel : Nat) (s : FeatureSet) (gen : RandomGen) (r : FeatureSet × RandomGen)
    (hnd : s.elems.Nodup) (hrange : ∀ f ∈ s.elems, 0 ≤ f ∧ f < (n : Int))
    (hsize : s.size ≤ target)
    (h : AxisAlignedRandomSplitGenerator.init_loop ⟨0, (n : Int) - 1⟩ target fuel s gen = some r) :
    r.1.elems.Nodup ∧ (∀ f ∈ r.1.elems, 0 ≤ f ∧ f < (n : Int)) ∧ r.1.size = target := by
  induction fuel generalizing s gen with
  | zero =>
    unfold AxisAlignedRandomSplitGenerator.init_loop at h
    split_ifs at h with hlt
    cases h
    refine ⟨hnd, hrange, ?_⟩
    show s.size = target
    omega
  | succ fuel ih =>
    unfold AxisAlignedRandomSplitGenerator.init_loop at h
    split_ifs at h with hlt
    · rw [UniformIntDist.draw_zero n hn gen] at h
      simp only at h
      refine ih (s.insert _) _ (featureSet_insert_nodup s _ hnd) ?_ ?_ h
      · intro f hf
        rcases featureSet_mem_insert s _ f hf with h1 | h1
        · exact hrange f h1
        · subst h1
          have := Nat.mod_lt (gen.stream 0) (show 0 < n by omega)
          omega
      · have := featureSet_insert_size_le s ((gen.stream 0 % n : Nat) : Int)
        omega
    · cases h
      refine ⟨hnd, hrange, ?_⟩
      show s.size = target
      omega

theorem AxisAlignedRandomSplitGenerator.init_loop_none (n target : Nat) (hn : 1 ≤ n)
    (fuel : Nat) (s : FeatureSet) (gen : RandomGen)
    (h : AxisAlignedRandomSplitGenerator.init_loop ⟨0, (n : Int) - 1⟩ target fuel s gen = none) :
    (s.elems.toFinset ∪
      (Finset.range fuel).image fun i => ((gen.stream i % n : Nat) : Int)).card < target := by
  induction fuel generalizing s gen with
  | zero =>
    unfold AxisAlignedRandomSplitGenerator.init_loop at h
    split_ifs at h with hlt
    simp only [Finset.range_zero, Finset.image_empty, Finset.union_empty]
    exact lt_of_le_of_lt (List.toFinset_card_le _) hlt
  | succ fuel ih =>
    unfold AxisAlignedRandomSplitGenerator.init_loop at h
    split_ifs at h with hlt
    rw [UniformIntDist.draw_zero n hn gen] at h
    simp only at h
    have := ih _ _ h
    rw [featureSet_insert_toFinset] at this
    rw [image_range_succ_shift]
    simpa only [Finset.insert_union, Finset.union_insert, Finset.insert_idem] using this

theorem AxisAlignedRandomSplitGenerator.init_outcome {α : Type} (fuel : Nat)
    (g : AxisAlignedRandomSplitGenerator) (samples : DataView2D α) (gen : RandomGen)
    (hn : 1 ≤ samples.cols) :
    (∀ r, AxisAlignedRandomSplitGenerator.init fuel g samples gen = some r →
      r.1.features.elems.Nodup ∧
      (∀ f ∈ r.1.features.elems, 0 ≤ f ∧ f < (samples.cols : Int)) ∧
      r.1.features.size = Nat.sqrt samples.cols ∧ r.1.it = 0) ∧
    (Nat.sqrt samples.cols ≤
        ((Finset.range fuel).image fun i => ((gen.stream i % samples.cols : Nat) : Int)).card →
      ∃ r, AxisAlignedRandomSplitGenerator.init fuel g samples gen = some r) := by
  unfold AxisAlignedRandomSplitGenerator.init
  simp only [Int.toNat_ofNat, FeatureSet.clear]
  constructor
  · intro r hr
    cases hl : AxisAlignedRandomSplitGenerator.init_loop ⟨0, (samples.cols : Int) - 1⟩
      (Nat.sqrt samples.cols) fuel ⟨[]⟩ gen with
    | none => rw [hl] at hr; cases hr
    | some p =>
      rw [hl] at hr
      cases hr
      obtain ⟨h1, h2, h3⟩ := AxisAlignedRandomSplitGenerator.init_loop_some samples.cols
        (Nat.sqrt samples.cols) hn fuel ⟨[]⟩ gen p List.nodup_nil
        (by intro f hf; cases hf) (Nat.zero_le _) hl
      exact ⟨h1, h2, h3, rfl⟩
  · intro hcard
    cases hl : AxisAlignedRandomSplitGenerator.init_loop ⟨0, (samples.cols : Int) - 1⟩
      (Nat.sqrt samples.cols) fuel ⟨[]⟩ gen with
    | none =>
      have := AxisAlignedRandomSplitGenerator.init_loop_none samples.cols
        (Nat.sqrt samples.cols) hn fuel ⟨[]⟩ gen hl
      simp only [List.toFinset_nil, Finset.empty_union] at this
      omega
    | some p => exact ⟨_, rfl⟩

theorem nat_sqrt_three : Nat.sqrt 3 = 1 := (Nat.eq_sqrt.2 ⟨by decide, by decide⟩).symm

theorem nat_sqrt_sixteen : Nat.sqrt 16 = 4 := (Nat.eq_sqrt.2 ⟨by decide, by decide⟩).symm

theorem round_sqrt_three : round (Real.sqrt 3) = 2 := by
  rw [round_eq, Int.floor_eq_iff]
  have h1 : (3 / 2 : ℝ) ≤ Real.sqrt 3 := Real.le_sqrt_of_sq_le (by norm_num)
  have h2 : Real.sqrt 3 < 5 / 2 := (Real.sqrt_lt' (by norm_num)).2 (by norm_num)
  constructor
  · push_cast; linarith
  · push_cast; linarith

/-- C9, counterexample: on a matrix with three columns `init` leaves the
generator with one feature, while `√3` rounded to the nearest integer is
`2`. -/
theorem AxisAlignedRandomSplitGenerator.init_three_columns :
    ∃ r, AxisAlignedRandomSplitGenerator.init 1 ⟨⟨[7, 8]⟩, 1⟩
        (⟨[0, 0, 0], 1, 3⟩ : DataView2D Int) ⟨fun _ => 0⟩ = some r ∧
      r.1.features.elems = [0] ∧
      (r.1.num_proposals : Int) ≠ round (Real.sqrt ((3 : Nat) : ℝ)) := by
  refine ⟨(⟨⟨[0]⟩, 0⟩, ⟨fun _ => 0⟩), ?_, rfl, ?_⟩
  · simp only [AxisAlignedRandomSplitGenerator.init, Int.toNat_ofNat, nat_sqrt_three]
    rfl
  · have : ((3 : Nat) : ℝ) = 3 := by norm_num
    rw [this, round_sqrt_three]
    decide

/-- C9, amended: on a matrix with `n_features ≥ 1` columns, whenever the
rejection loop of `init` finishes the generator holds exactly
`⌊√n_features⌋` pairwise distinct feature indices, each in `[0, n_features)`;
and the loop finishes within `fuel` iterations as soon as the first `fuel`
draws contain that many distinct values. -/
theorem AxisAlignedRandomSplitGenerator.init_selects_floor_sqrt {α : Type} (fuel : Nat)
    (g : AxisAlignedRandomSplitGenerator) (samples : DataView2D α) (gen : RandomGen)
    (hn : 1 ≤ samples.cols) :
    (∀ r, AxisAlignedRandomSplitGenerator.init fuel g samples gen = some r →
      r.1.features.size = ⌊Real.sqrt (samples.cols : ℝ)⌋₊ ∧
      r.1.features.elems.Nodup ∧
      ∀ f ∈ r.1.features.elems, 0 ≤ f ∧ f < (samples.cols : Int)) ∧
    (⌊Real.sqrt (samples.cols : ℝ)⌋₊ ≤
        ((Finset.range fuel).image fun i => ((gen.stream i % samples.cols : Nat) : Int)).card →
      ∃ r, AxisAlignedRandomSplitGenerator.init fuel g samples gen = some r) := by
  rw [Real.nat_floor_real_sqrt_eq_nat_sqrt]
  obtain ⟨h1, h2⟩ := AxisAlignedRandomSplitGenerator.init_outcome fuel g samples gen hn
  refine ⟨?_, h2⟩
  intro r hr
  obtain ⟨a, b, c, _⟩ := h1 r hr
  exact ⟨c, a, b⟩

/-- Witness for C9 (amended): ten columns, draws `0, 1, 2, …`; the loop
finishes after three draws with the features `0, 1, 2`. -/
theorem AxisAlignedRandomSplitGenerator.init_selects_floor_sqrt_witness :
    1 ≤ (⟨[], 0, 10⟩ : DataView2D Int).cols ∧
    ∃ r, AxisAlignedRandomSplitGenerator.init 3 ⟨⟨[]⟩, 0⟩ (⟨[], 0, 10⟩ : DataView2D Int)
        ⟨fun i => i⟩ = some r ∧
      r.1.features.size = ⌊Real.sqrt ((10 : Nat) : ℝ)⌋₊ ∧ r.1.features.elems.Nodup := by
  have hs : Nat.sqrt 10 = 3 := (Nat.eq_sqrt.2 ⟨by decide, by decide⟩).symm
  have h := AxisAlignedRandomSplitGenerator.init_selects_floor_sqrt 3 ⟨⟨[]⟩, 0⟩
    (⟨[], 0, 10⟩ : DataView2D Int) ⟨fun i => i⟩ (by decide)
  obtain ⟨r, hr⟩ := h.2 (by
    rw [Real.nat_floor_real_sqrt_eq_nat_sqrt, hs]
    decide)
  obtain ⟨h1, h2, _⟩ := h.1 r hr
  exact ⟨by decide, r, hr, h1, h2⟩

/-- C10: on a matrix with 16 columns, whenever the rejection loop of `init`
finishes the generator holds exactly 4 pairwise distinct feature indices,
each in `[0, 16)`, and `num_proposals()` is 4; the loop finishes within
`fuel` iterations as soon as the first `fuel` draws contain 4 distinct
values. -/
theorem AxisAlignedRandomSplitGenerator.init_sixteen_features {α : Type} (fuel : Nat)
    (g : AxisAlignedRandomSplitGenerator) (samples : DataView2D α) (gen : RandomGen)
    (h16 : samples.cols = 16) :
    (∀ r, AxisAlignedRandomSplitGenerator.init fuel g samples gen = some r →
      r.1.features.size = 4 ∧ r.1.num_proposals = 4 ∧ r.1.features.elems.Nodup ∧
      ∀ f ∈ r.1.features.elems, 0 ≤ f ∧ f < 16) ∧
    (4 ≤ ((Finset.range fuel).image fun i => ((gen.stream i % 16 : Nat) : Int)).card →
      ∃ r, AxisAlignedRandomSplitGenerator.init fuel g samples gen = some r) := by
  obtain ⟨h1, h2⟩ := AxisAlignedRandomSplitGenerator.init_outcome fuel g samples gen
    (by omega)
  rw [h16, nat_sqrt_sixteen] at h1 h2
  refine ⟨?_, h2⟩
  intro r hr
  obtain ⟨a, b, c, _⟩ := h1 r hr
  exact ⟨c, c, a, fun f hf => by simpa using b f hf⟩

/-- Witness for C10: a matrix with 16 columns and the draws `5, 5, 9, 0, 21,
7, …`; the loop finishes after six draws with the features `5, 9, 0, 7`. -/
theorem AxisAlignedRandomSplitGenerator.init_sixteen_features_witness :
    (⟨[], 0, 16⟩ : DataView2D Int).cols = 16 ∧
    (AxisAlignedRandomSplitGenerator.init 6 ⟨⟨[3]⟩, 1⟩ (⟨[], 0, 16⟩ : DataView2D Int)
        ⟨fun i => [5, 5, 9, 0, 21, 7].getD i 0⟩).map (fun r => r.1)
      = some ⟨⟨[5, 9, 0, 7]⟩, 0⟩ ∧
    ∃ r, AxisAlignedRandomSplitGenerator.init 6 ⟨⟨[3]⟩, 1⟩ (⟨[], 0, 16⟩ : DataView2D Int)
        ⟨fun i => [5, 5, 9, 0, 21, 7].getD i 0⟩ = some r ∧ r.1.num_proposals = 4 := by
  have h := AxisAlignedRandomSplitGenerator.init_sixteen_features 6 ⟨⟨[3]⟩, 1⟩
    (⟨[], 0, 16⟩ : DataView2D Int) ⟨fun i => [5, 5, 9, 0, 21, 7].getD i 0⟩ rfl
  obtain ⟨r, hr⟩ := h.2 (by decide)
  refine ⟨rfl, ?_, r, hr, (h.1 r hr).2.1⟩
  simp only [AxisAlignedRandomSplitGenerator.init, Int.toNat_ofNat, nat_sqrt_sixteen]
  rfl

/-! ## The axis-aligned split generator: `gen_proposal` -/

theorem AxisAlignedRandomSplitGenerator.gen_proposal_eq {α : Type} [Neg α] [One α]
    (g : AxisAlignedRandomSplitGenerator) (gen : RandomGen) (hm : 1 ≤ g.features.size)
    (hit : g.it ≤ g.features.size) :
    (g.gen_proposal gen :
        Option (AxisAlignedSplitter α × AxisAlignedRandomSplitGenerator × RandomGen))
      = some (AxisAlignedSplitter.new (g.features.elems.getD (g.it % g.features.size) 0),
          { g with it := g.it % g.features.size + 1 }, gen) := by
  unfold AxisAlignedRandomSplitGenerator.gen_proposal
  have hpos : (if g.it = g.features.size then 0 else g.it) = g.it % g.features.size := by
    split_ifs with h
    · rw [h, Nat.mod_self]
    · rw [Nat.mod_eq_of_lt (by omega)]
  have hlt : g.it % g.features.size < g.features.elems.length := Nat.mod_lt _ hm
  simp only [hpos, getElem?_eq_some_getD g.features.elems _ 0 hlt]

theorem AxisAlignedRandomSplitGenerator.nth_proposal_eq {α : Type} [Neg α] [One α] (k : Nat)
    (g : AxisAlignedRandomSplitGenerator) (gen : RandomGen) (hm : 1 ≤ g.features.size)
    (hit : g.it ≤ g.features.size) :
    (AxisAlignedRandomSplitGenerator.nth_proposal k g gen :
        Option (AxisAlignedSplitter α × AxisAlignedRandomSplitGenerator × RandomGen))
      = some (AxisAlignedSplitter.new (g.features.elems.getD ((g.it + k) % g.features.size) 0),
          { g with it := (g.it + k) % g.features.size + 1 }, gen) := by
  induction k generalizing g with
  | zero =>
    rw [AxisAlignedRandomSplitGenerator.nth_proposal,
      AxisAlignedRandomSplitGenerator.gen_proposal_eq g gen hm hit]
    rfl
  | succ k ih =>
    rw [AxisAlignedRandomSplitGenerator.nth_proposal,
      AxisAlignedRandomSplitGenerator.gen_proposal_eq g gen hm hit]
    simp only [Option.some_bind]
    have hlt : g.it % g.features.size + 1 ≤ g.features.size := Nat.mod_lt _ (by omega)
    rw [ih { g with it := g.it % g.features.size + 1 } hm hlt]
    have : (g.it % g.features.size + 1 + k) % g.features.size
        = (g.it + (k + 1)) % g.features.size := by
      rw [show g.it % g.features.size + 1 + k = g.it % g.features.size + (k + 1) by omega,
        Nat.add_mod, Nat.mod_mod, ← Nat.add_mod]
    simp only [this]

theorem AxisAlignedRandomSplitGenerator.gen_proposal_features {α : Type} [Neg α] [One α]
    (g : AxisAlignedRandomSplitGenerator) (gen : RandomGen)
    (out : AxisAlignedSplitter α × AxisAlignedRandomSplitGenerator × RandomGen)
    (h : g.gen_proposal gen = some out) :
    out.2.1.features = g.features ∧ out.2.2 = gen := by
  unfold AxisAlignedRandomSplitGenerator.gen_proposal at h
  simp only at h
  split at h
  · cases h
    exact ⟨rfl, rfl⟩
  · cases h

theorem AxisAlignedRandomSplitGenerator.nth_proposal_features {α : Type} [Neg α] [One α]
    (k : Nat) (g : AxisAlignedRandomSplitGenerator) (gen : RandomGen)
    (out : AxisAlignedSplitter α × AxisAlignedRandomSplitGenerator × RandomGen)
    (h : AxisAlignedRandomSplitGenerator.nth_proposal k g gen = some out) :
    out.2.1.features = g.features ∧ out.2.2 = gen := by
  induction k generalizing g gen with
  | zero => exact AxisAlignedRandomSplitGenerator.gen_proposal_features g gen out h
  | succ k ih =>
    rw [AxisAlignedRandomSplitGenerator.nth_proposal] at h
    cases h1 : (g.gen_proposal gen :
        Option (AxisAlignedSplitter α × AxisAlignedRandomSplitGenerator × RandomGen)) with
    | none => rw [h1] at h; cases h
    | some r =>
      rw [h1] at h
      simp only [Option.some_bind] at h
      obtain ⟨a, b⟩ := AxisAlignedRandomSplitGenerator.gen_proposal_features g gen r h1
      obtain ⟨c, d⟩ := ih r.2.1 r.2.2 h
      exact ⟨c.trans a, d.trans b⟩

/-- C11: after `init` on a matrix with at least one column, with
`m = num_proposals()`: the selected features are `m ≥ 1` pairwise distinct
values, call number `k + 1` of `gen_proposal` returns an axis-aligned splitter
on the feature at position `k mod m` of the selected set and leaves the set
unchanged, and the features of the first `m` calls are the selected set, each
feature once. -/
theorem AxisAlignedRandomSplitGenerator.gen_proposal_cycles {α : Type} [Neg α] [One α]
    (fuel : Nat) (g : AxisAlignedRandomSplitGenerator) (samples : DataView2D α)
    (gen : RandomGen) (r : AxisAlignedRandomSplitGenerator × RandomGen)
    (hn : 1 ≤ samples.cols)
    (hr : AxisAlignedRandomSplitGenerator.init fuel g samples gen = some r) :
    1 ≤ r.1.num_proposals ∧ r.1.features.elems.Nodup ∧
    r.1.features.elems.length = r.1.num_proposals ∧
    (∀ (k : Nat) (gen2 : RandomGen), ∃ f g1,
      (AxisAlignedRandomSplitGenerator.nth_proposal k r.1 gen2 :
        Option (AxisAlignedSplitter α × AxisAlignedRandomSplitGenerator × RandomGen))
        = some (AxisAlignedSplitter.new f, g1, gen2) ∧
      r.1.features.elems[k % r.1.num_proposals]? = some f ∧
      g1.features = r.1.features) ∧
    ∀ gen2 : RandomGen,
      (List.range r.1.num_proposals).map (fun k =>
        (AxisAlignedRandomSplitGenerator.nth_proposal k r.1 gen2 :
          Option (AxisAlignedSplitter α × AxisAlignedRandomSplitGenerator × RandomGen)).map
          fun out => out.1.feature)
        = r.1.features.elems.map some := by
  obtain ⟨h1, _⟩ := AxisAlignedRandomSplitGenerator.init_outcome fuel g samples gen hn
  obtain ⟨hnd, _, hsize, hit⟩ := h1 r hr
  have hpos : 1 ≤ r.1.features.size := by
    rw [hsize]
    exact Nat.sqrt_pos.2 (by omega)
  have hcall : ∀ (k : Nat) (gen2 : RandomGen),
      (AxisAlignedRandomSplitGenerator.nth_proposal k r.1 gen2 :
        Option (AxisAlignedSplitter α × AxisAlignedRandomSplitGenerator × RandomGen))
        = some (AxisAlignedSplitter.new (r.1.features.elems.getD (k % r.1.features.size) 0),
            { r.1 with it := k % r.1.features.size + 1 }, gen2) := by
    intro k gen2
    have := @AxisAlignedRandomSplitGenerator.nth_proposal_eq α _ _ k r.1 gen2 hpos (by omega)
    rw [hit, Nat.zero_add] at this
    exact this
  refine ⟨hpos, hnd, rfl, ?_, ?_⟩
  · intro k gen2
    refine ⟨_, _, hcall k gen2, ?_, rfl⟩
    exact getElem?_eq_some_getD _ _ 0 (Nat.mod_lt _ hpos)
  · intro gen2
    apply List.ext_getElem?
    intro i
    simp only [List.getElem?_map, List.getElem?_range, AxisAlignedRandomSplitGenerator.num_proposals]
    by_cases hi : i < r.1.features.size
    · have hi2 : i < r.1.features.elems.length := hi
      rw [List.getElem?_range hi]
      simp only [Option.map_some', hcall i gen2, Nat.mod_eq_of_lt hi, AxisAlignedSplitter.new,
        getElem?_eq_some_getD _ _ (0 : Int) hi2]
    · have hi2 : r.1.features.elems.length ≤ i := Nat.le_of_not_lt hi
      rw [List.getElem?_eq_none (by simpa using Nat.le_of_not_lt hi), List.getElem?_eq_none hi2]
      rfl

/-- Witness for C11: 16 columns and the draws `5, 5, 9, 0, 21, 7`; the
selected features are `5, 9, 0, 7` and the sixth call returns feature `9`. -/
theorem AxisAlignedRandomSplitGenerator.gen_proposal_cycles_witness :
    1 ≤ (⟨[], 0, 16⟩ : DataView2D Int).cols ∧
    ∃ r, AxisAlignedRandomSplitGenerator.init 6 ⟨⟨[3]⟩, 1⟩ (⟨[], 0, 16⟩ : DataView2D Int)
        ⟨fun i => [5, 5, 9, 0, 21, 7].getD i 0⟩ = some r ∧
      r.1.features.elems = [5, 9, 0, 7] ∧
      ((AxisAlignedRandomSplitGenerator.nth_proposal 5 r.1 ⟨fun _ => 0⟩ :
        Option (AxisAlignedSplitter Int × AxisAlignedRandomSplitGenerator × RandomGen)).map
        fun out => out.1.feature) = some 9 := by
  have hmap : (AxisAlignedRandomSplitGenerator.init 6 ⟨⟨[3]⟩, 1⟩
      (⟨[], 0, 16⟩ : DataView2D Int) ⟨fun i => [5, 5, 9, 0, 21, 7].getD i 0⟩).map
      (fun r => r.1) = some ⟨⟨[5, 9, 0, 7]⟩, 0⟩ := by
    simp only [AxisAlignedRandomSplitGenerator.init, Int.toNat_ofNat, nat_sqrt_sixteen]
    rfl
  cases hr : AxisAlignedRandomSplitGenerator.init 6 ⟨⟨[3]⟩, 1⟩
      (⟨[], 0, 16⟩ : DataView2D Int) ⟨fun i => [5, 5, 9, 0, 21, 7].getD i 0⟩ with
  | none => rw [hr] at hmap; cases hmap
  | some r =>
    rw [hr] at hmap
    have hr1 : r.1 = ⟨⟨[5, 9, 0, 7]⟩, 0⟩ := Option.some.inj hmap
    obtain ⟨_, _, _, hcall, _⟩ := AxisAlignedRandomSplitGenerator.gen_proposal_cycles 6
      ⟨⟨[3]⟩, 1⟩ (⟨[], 0, 16⟩ : DataView2D Int) ⟨fun i => [5, 5, 9, 0, 21, 7].getD i 0⟩ r
      (by decide) hr
    obtain ⟨f, g1, h1, h2, _⟩ := hcall 5 ⟨fun _ => 0⟩
    refine ⟨by decide, r, rfl, by rw [hr1], ?_⟩
    rw [h1]
    rw [hr1] at h2
    have : f = 9 := (Option.some.inj h2).symm
    rw [this]
    rfl

/-! ## The axis-aligned split generator: `num_proposals` -/

theorem AxisAlignedRandomSplitGenerator.init_loop_draws (n target : Nat) (hn : 1 ≤ n)
    (fuel : Nat) (s : FeatureSet) (gen : RandomGen) (r : FeatureSet × RandomGen)
    (h : AxisAlignedRandomSplitGenerator.init_loop ⟨0, (n : Int) - 1⟩ target fuel s gen = some r) :
    ∃ k, k ≤ fuel ∧
      r.1.elems.toFinset = s.elems.toFinset ∪
        (Finset.range k).image (fun i => ((gen.stream i % n : Nat) : Int)) ∧
      ∀ i, r.2.stream i = gen.stream (i + k) := by
  induction fuel generalizing s gen with
  | zero =>
    unfold AxisAlignedRandomSplitGenerator.init_loop at h
    split_ifs at h with hlt
    cases h
    exact ⟨0, le_refl _, by simp, fun i => rfl⟩
  | succ fuel ih =>
    unfold AxisAlignedRandomSplitGenerator.init_loop at h
    split_ifs at h with hlt
    · rw [UniformIntDist.draw_zero n hn gen] at h
      simp only at h
      obtain ⟨k, hk, hset, hstream⟩ := ih _ _ h
      refine ⟨k + 1, by omega, ?_, ?_⟩
      · rw [hset, featureSet_insert_toFinset, image_range_succ_shift]
        simp only [Finset.insert_union, Finset.union_insert]
      · intro i
        rw [hstream i]
        show gen.stream (i + k + 1) = gen.stream (i + (k + 1))
        rfl
    · cases h
      exact ⟨0, Nat.zero_le _, by simp, fun i => rfl⟩

theorem AxisAlignedRandomSplitGenerator.init_loop_target_zero (dist : UniformIntDist)
    (fuel : Nat) (s : FeatureSet) (gen : RandomGen) :
    AxisAlignedRandomSplitGenerator.init_loop dist 0 fuel s gen = some (s, gen) := by
  cases fuel <;> simp [AxisAlignedRandomSplitGenerator.init_loop]

theorem AxisAlignedRandomSplitGenerator.init_draws {α : Type} (fuel : Nat)
    (g : AxisAlignedRandomSplitGenerator) (samples : DataView2D α) (gen : RandomGen)
    (r : AxisAlignedRandomSplitGenerator × RandomGen)
    (hr : AxisAlignedRandomSplitGenerator.init fuel g samples gen = some r) :
    r.1.features.elems.Nodup ∧ ∃ k, k ≤ fuel ∧
      r.1.features.elems.toFinset
        = (Finset.range k).image (fun i => ((gen.stream i % samples.cols : Nat) : Int)) ∧
      ∀ i, r.2.stream i = gen.stream (i + k) := by
  by_cases hn : 1 ≤ samples.cols
  · obtain ⟨h1, _⟩ := AxisAlignedRandomSplitGenerator.init_outcome fuel g samples gen hn
    refine ⟨(h1 r hr).1, ?_⟩
    unfold AxisAlignedRandomSplitGenerator.init at hr
    simp only [Int.toNat_ofNat, FeatureSet.clear] at hr
    cases hl : AxisAlignedRandomSplitGenerator.init_loop ⟨0, (samples.cols : Int) - 1⟩
      (Nat.sqrt samples.cols) fuel ⟨[]⟩ gen with
    | none => rw [hl] at hr; cases hr
    | some p =>
      rw [hl] at hr
      cases hr
      obtain ⟨k, hk, hset, hstream⟩ := AxisAlignedRandomSplitGenerator.init_loop_draws
        samples.cols (Nat.sqrt samples.cols) hn fuel ⟨[]⟩ gen p hl
      refine ⟨k, hk, ?_, hstream⟩
      simpa using hset
  · have h0 : samples.cols = 0 := by omega
    unfold AxisAlignedRandomSplitGenerator.init at hr
    simp only [Int.toNat_ofNat, FeatureSet.clear, h0, Nat.sqrt_zero,
      AxisAlignedRandomSplitGenerator.init_loop_target_zero, Option.map_some',
      Option.some.injEq] at hr
    subst hr
    exact ⟨List.nodup_nil, 0, Nat.zero_le _, by simp, fun i => rfl⟩

/-- C12: whatever state the generator was in, `init` selects the same set of
features and offers the same number of proposals; after it,
`num_proposals()` is the number of distinct values among the draws that this
call consumed, the selected set being exactly those values; and no run of
later `gen_proposal` calls changes `num_proposals()`. -/
theorem AxisAlignedRandomSplitGenerator.init_resets {α : Type} [Neg α] [One α] (fuel : Nat)
    (g g2 : AxisAlignedRandomSplitGenerator) (samples : DataView2D α) (gen : RandomGen) :
    (AxisAlignedRandomSplitGenerator.init fuel g samples gen).map
        (fun r => (r.1.features.elems.toFinset, r.1.num_proposals))
      = (AxisAlignedRandomSplitGenerator.init fuel g2 samples gen).map
        (fun r => (r.1.features.elems.toFinset, r.1.num_proposals)) ∧
    ∀ r, AxisAlignedRandomSplitGenerator.init fuel g samples gen = some r →
      (∃ k, k ≤ fuel ∧
        r.1.features.elems.toFinset
          = (Finset.range k).image (fun i => ((gen.stream i % samples.cols : Nat) : Int)) ∧
        r.1.num_proposals
          = ((Finset.range k).image
              (fun i => ((gen.stream i % samples.cols : Nat) : Int))).card ∧
        ∀ i, r.2.stream i = gen.stream (i + k)) ∧
      ∀ (k2 : Nat) (gen2 : RandomGen)
        (out : AxisAlignedSplitter α × AxisAlignedRandomSplitGenerator × RandomGen),
        AxisAlignedRandomSplitGenerator.nth_proposal k2 r.1 gen2 = some out →
        out.2.1.num_proposals = r.1.num_proposals := by
  refine ⟨rfl, ?_⟩
  intro r hr
  obtain ⟨hnd, k, hk, hset, hstream⟩ :=
    AxisAlignedRandomSplitGenerator.init_draws fuel g samples gen r hr
  refine ⟨⟨k, hk, hset, ?_, hstream⟩, ?_⟩
  · rw [← hset, List.toFinset_card_of_nodup hnd]
    rfl
  · intro k2 gen2 out hout
    have := (AxisAlignedRandomSplitGenerator.nth_proposal_features k2 r.1 gen2 out hout).1
    simp only [AxisAlignedRandomSplitGenerator.num_proposals, this]

/-- Witness for C12: a generator left with the features `3, 4, 5` is
initialised on 16 columns with the draws `5, 5, 9, 0, 21, 7`; it then offers
4 proposals, before and after three `gen_proposal` calls. -/
theorem AxisAlignedRandomSplitGenerator.init_resets_witness :
    ∃ r, AxisAlignedRandomSplitGenerator.init 6 ⟨⟨[3, 4, 5]⟩, 2⟩
        (⟨[], 0, 16⟩ : DataView2D Int) ⟨fun i => [5, 5, 9, 0, 21, 7].getD i 0⟩ = some r ∧
      r.1.num_proposals = 4 ∧
      ∀ out : AxisAlignedSplitter Int × AxisAlignedRandomSplitGenerator × RandomGen,
        AxisAlignedRandomSplitGenerator.nth_proposal 2 r.1 ⟨fun _ => 0⟩ = some out →
        out.2.1.num_proposals = 4 := by
  have hmap : (AxisAlignedRandomSplitGenerator.init 6 ⟨⟨[3, 4, 5]⟩, 2⟩
      (⟨[], 0, 16⟩ : DataView2D Int) ⟨fun i => [5, 5, 9, 0, 21, 7].getD i 0⟩).map
      (fun r => r.1) = some ⟨⟨[5, 9, 0, 7]⟩, 0⟩ := by
    simp only [AxisAlignedRandomSplitGenerator.init, Int.toNat_ofNat, nat_sqrt_sixteen]
    rfl
  cases hr : AxisAlignedRandomSplitGenerator.init 6 ⟨⟨[3, 4, 5]⟩, 2⟩
      (⟨[], 0, 16⟩ : DataView2D Int) ⟨fun i => [5, 5, 9, 0, 21, 7].getD i 0⟩ with
  | none => rw [hr] at hmap; cases hmap
  | some r =>
    rw [hr] at hmap
    have hr1 : r.1 = ⟨⟨[5, 9, 0, 7]⟩, 0⟩ := Option.some.inj hmap
    have h4 : r.1.num_proposals = 4 := by rw [hr1]; rfl
    obtain ⟨_, h⟩ := AxisAlignedRandomSplitGenerator.init_resets 6 ⟨⟨[3, 4, 5]⟩, 2⟩
      ⟨⟨[]⟩, 0⟩ (⟨[], 0, 16⟩ : DataView2D Int) ⟨fun i => [5, 5, 9, 0, 21, 7].getD i 0⟩
    refine ⟨r, rfl, h4, ?_⟩
    intro out hout
    rw [← h4]
    exact (h r hr).2 2 ⟨fun _ => 0⟩ out hout

/-! ## The linear and quadratic split generators -/

theorem fill_weights_forLoop {α : Type} (dist : NormalDist α) (k i0 : Nat) (weights : List α)
    (gen : RandomGen) (h : i0 + k ≤ weights.length) :
    ∃ ws gen1, forLoop (fun i_feature (st : List α × RandomGen) =>
        if i_feature < st.1.length then
          some (st.1.set i_feature (dist.draw st.2).1, (dist.draw st.2).2)
        else none) k i0 (weights, gen) = some (ws, gen1) ∧
      ws.length = weights.length ∧
      (∀ j, i0 ≤ j → j < i0 + k → ws[j]? = some (dist.value (gen.stream (j - i0)))) ∧
      (∀ j, j < i0 → ws[j]? = weights[j]?) ∧
      ∀ i, gen1.stream i = gen.stream (i + k) := by
  induction k generalizing i0 weights gen with
  | zero =>
    refine ⟨weights, gen, rfl, rfl, ?_, fun _ _ => rfl, fun _ => rfl⟩
    intro j h1 h2
    omega
  | succ k ih =>
    have hlt : i0 < weights.length := by omega
    obtain ⟨ws, gen1, hrun, hlen, hin, hlow, hstream⟩ := ih (i0 + 1)
      (weights.set i0 (dist.draw gen).1) (dist.draw gen).2
      (by simp only [List.length_set]; omega)
    refine ⟨ws, gen1, ?_, ?_, ?_, ?_, ?_⟩
    · rw [forLoop]
      refine (bind_of_eq_some _ _ (weights.set i0 (dist.draw gen).1, (dist.draw gen).2) ?_).trans
        hrun
      simp only [hlt, if_true]
    · rw [hlen, List.length_set]
    · intro j h1 h2
      by_cases hj : j = i0
      · subst hj
        rw [hlow j (by omega), List.getElem?_set_self hlt, Nat.sub_self]
        rfl
      · rw [hin j (by omega) (by omega)]
        show some (dist.value (gen.stream (j - (i0 + 1) + 1))) = _
        rw [show j - (i0 + 1) + 1 = j - i0 by omega]
    · intro j hj
      rw [hlow j (by omega), List.getElem?_set_ne (by omega)]
    · intro i
      rw [hstream i]
      show gen.stream (i + k + 1) = gen.stream (i + (k + 1))
      rfl

theorem fill_weights_spec {α : Type} (dist : NormalDist α) (n : Nat) (weights : List α)
    (gen : RandomGen) (h : n ≤ weights.length) :
    ∃ ws gen1, fill_weights dist n weights gen = some (ws, gen1) ∧
      ws.length = weights.length ∧
      (∀ j, j < n → ws[j]? = some (dist.value (gen.stream j))) ∧
      ∀ i, gen1.stream i = gen.stream (i + n) := by
  obtain ⟨ws, gen1, hrun, hlen, hin, _, hstream⟩ :=
    fill_weights_forLoop dist n 0 weights gen (by omega)
  exact ⟨ws, gen1, hrun, hlen, fun j hj => by simpa using hin j (Nat.zero_le _) (by omega),
    hstream⟩

/-- C13: a `LinearSplitGenerator` or `QuadraticSplitGenerator` constructed
with proposal count `c` (5 without an argument) answers `c` to
`num_proposals()`; `init` leaves the answer unchanged whatever matrix,
labels, sample subset, class count and random source it is given, and
`gen_proposal` hands back the very generator it was called on. -/
theorem num_proposals_constant {α : Type} [Zero α] (c : Nat) (samples : DataView2D α)
    (labels : DataView2D Int) (sample_idxes : List Int) (n_samples : Int) (n_classes : Nat)
    (gen : RandomGen) (dist : NormalDist α) (indeterminate : α) :
    ((LinearSplitGenerator.new c).num_proposals = c ∧
      LinearSplitGenerator.newDefault.num_proposals = 5 ∧
      (∀ g : LinearSplitGenerator,
        (g.init samples labels sample_idxes n_samples n_classes gen).1.num_proposals
          = g.num_proposals) ∧
      ∀ (g : LinearSplitGenerator) (out : LinearSplitter α × LinearSplitGenerator × RandomGen),
        g.gen_proposal dist indeterminate gen = some out →
        out.2.1 = g ∧ out.2.1.num_proposals = g.num_proposals) ∧
    ((QuadraticSplitGenerator.new c).num_proposals = c ∧
      QuadraticSplitGenerator.newDefault.num_proposals = 5 ∧
      (∀ g : QuadraticSplitGenerator,
        (g.init samples labels sample_idxes n_samples n_classes gen).1.num_proposals
          = g.num_proposals) ∧
      ∀ (g : QuadraticSplitGenerator)
        (out : QuadraticSplitter α × QuadraticSplitGenerator × RandomGen),
        g.gen_proposal dist indeterminate gen = some out →
        out.2.1 = g ∧ out.2.1.num_proposals = g.num_proposals) := by
  refine ⟨⟨rfl, rfl, fun _ => rfl, ?_⟩, ⟨rfl, rfl, fun _ => rfl, ?_⟩⟩
  · intro g out h
    unfold LinearSplitGenerator.gen_proposal at h
    cases hn : g.n_features with
    | none => rw [hn] at h; cases h
    | some n =>
      rw [hn] at h
      simp only [Option.some_bind, Option.map_eq_some'] at h
      obtain ⟨st, _, rfl⟩ := h
      exact ⟨rfl, rfl⟩
  · intro g out h
    unfold QuadraticSplitGenerator.gen_proposal at h
    cases hn : g.n_features with
    | none => rw [hn] at h; cases h
    | some n =>
      rw [hn] at h
      simp only [Option.some_bind, Option.map_eq_some'] at h
      obtain ⟨st, _, rfl⟩ := h
      exact ⟨rfl, rfl⟩

/-- Witness for C13: a linear generator constructed with count 3, after
`init` and one `gen_proposal` call. -/
theorem num_proposals_constant_witness :
    ∃ out : LinearSplitter Int × LinearSplitGenerator × RandomGen,
      ((LinearSplitGenerator.new 3).init (⟨[], 0, 2⟩ : DataView2D Int) ⟨[], 0, 1⟩ [] 0 2
          ⟨fun i => i⟩).1.gen_proposal ⟨fun n => (n : Int) + 10⟩ 0 ⟨fun i => i⟩ = some out ∧
      out.1.w = [10, 11] ∧ out.2.1.num_proposals = 3 := by
  obtain ⟨⟨_, _, hinit, hgen⟩, _⟩ := num_proposals_constant 3 (⟨[], 0, 2⟩ : DataView2D Int)
    ⟨[], 0, 1⟩ [] 0 2 ⟨fun i => i⟩ ⟨fun n => (n : Int) + 10⟩ 0
  refine ⟨(⟨[10, 11], 0⟩, ⟨some 2, 3⟩, ⟨fun i => i + 1 + 1⟩), rfl, rfl, ?_⟩
  exact ((hgen ⟨some 2, 3⟩ _ rfl).2).trans (hinit (LinearSplitGenerator.new 3))

/-! ## ForestParams: what the constructor and `read` guarantee -/

theorem ForestParams.read_ofBytes_fields (e : Endian) (q : ForestParams) (bs : List Byte) :
    q.read e (IStream.ofBytes bs) =
      ({ n_classes := objValue e (((bs ++ (q.write e []).2.drop bs.length).drop 0).take 8)
         n_features := objValue e (((bs ++ (q.write e []).2.drop bs.length).drop 8).take 8)
         n_samples := objValue e (((bs ++ (q.write e []).2.drop bs.length).drop 16).take 8)
         n_in_bag_samples :=
           objValue e (((bs ++ (q.write e []).2.drop bs.length).drop 24).take 8)
         max_depth := objValue e (((bs ++ (q.write e []).2.drop bs.length).drop 32).take 8)
         n_trees := objValue e (((bs ++ (q.write e []).2.drop bs.length).drop 40).take 8)
         min_samples_per_node :=
           objValue e (((bs ++ (q.write e []).2.drop bs.length).drop 48).take 8)
         sample_reduction :=
           objValue e (((bs ++ (q.write e []).2.drop bs.length).drop 56).take 4)
         resolution := objValue e (((bs ++ (q.write e []).2.drop bs.length).drop 60).take 8)
         radius := objValue e (((bs ++ (q.write e []).2.drop bs.length).drop 68).take 8)
         numScales :=
           bitsInt (objValue e (((bs ++ (q.write e []).2.drop bs.length).drop 76).take 4)) },
       IStream.afterRequests bs 80) := by
  obtain ⟨g1, g2, g3, g4, g5, g6, g7, g8, g9, g10, g11⟩ := ForestParams.write_slices e q
  generalize (q.write e []).2 = O at g1 g2 g3 g4 g5 g6 g7 g8 g9 g10 g11 ⊢
  rw [IStream.ofBytes_eq_afterRequests]
  simp only [ForestParams.read]
  rw [readUnsigned_slice e 8 0 _ bs O g1, readUnsigned_slice e 8 8 _ bs O g2,
    readUnsigned_slice e 8 16 _ bs O g3, readUnsigned_slice e 8 24 _ bs O g4,
    readUnsigned_slice e 8 32 _ bs O g5, readUnsigned_slice e 8 40 _ bs O g6,
    readUnsigned_slice e 8 48 _ bs O g7, readUnsigned_slice e 4 56 _ bs O g8,
    readUnsigned_slice e 8 60 _ bs O g9, readUnsigned_slice e 8 68 _ bs O g10,
    readInt_slice e 76 _ bs O g11]

theorem objValue_slice_lt (e : Endian) (T : List Byte) (k n : Nat) :
    objValue e ((T.drop k).take n) < 256 ^ n := by
  have h := objValue_lt e ((T.drop k).take n)
  have hl : ((T.drop k).take n).length ≤ n := by
    simp only [List.length_take]; omega
  exact lt_of_lt_of_le h (Nat.pow_le_pow_right (by decide) hl)

theorem ForestParams.read_eighty (e : Endian) (q : ForestParams) (bs : List Byte)
    (hlen : bs.length = 80) :
    q.read e (IStream.ofBytes bs) =
      ({ n_classes := objValue e ((bs.drop 0).take 8)
         n_features := objValue e ((bs.drop 8).take 8)
         n_samples := objValue e ((bs.drop 16).take 8)
         n_in_bag_samples := objValue e ((bs.drop 24).take 8)
         max_depth := objValue e ((bs.drop 32).take 8)
         n_trees := objValue e ((bs.drop 40).take 8)
         min_samples_per_node := objValue e ((bs.drop 48).take 8)
         sample_reduction := objValue e ((bs.drop 56).take 4)
         resolution := objValue e ((bs.drop 60).take 8)
         radius := objValue e ((bs.drop 68).take 8)
         numScales := bitsInt (objValue e ((bs.drop 76).take 4)) },
       { unread := [], pos := 80, failbit := false, eofbit := false }) := by
  rw [ForestParams.read_ofBytes_fields]
  have hT : bs ++ (q.write e []).2.drop bs.length = bs := by
    rw [List.drop_of_length_le (by rw [ForestParams.write_length, hlen]), List.append_nil]
  rw [hT]
  congr 1
  simp [IStream.afterRequests, hlen, List.drop_of_length_le (le_of_eq hlen)]

/-- C15, counterexample: the default-constructed block has `n_classes = 0`
and `n_features = 0`, and `read` on 80 zero bytes returns a block with
`n_classes = 0`; neither satisfies the invariant. -/
theorem ForestParams.invariant_fails :
    ¬ (2 ≤ ForestParams.default.n_classes ∧ 1 ≤ ForestParams.default.n_features ∧
        1 ≤ ForestParams.default.max_depth ∧ 1 ≤ ForestParams.default.n_trees) ∧
    (List.replicate 80 (0 : Byte)).length = 80 ∧
    ¬ (2 ≤ (ForestParams.default.read Endian.little
            (IStream.ofBytes (List.replicate 80 0))).1.n_classes ∧
        1 ≤ (ForestParams.default.read Endian.little
            (IStream.ofBytes (List.replicate 80 0))).1.n_features ∧
        1 ≤ (ForestParams.default.read Endian.little
            (IStream.ofBytes (List.replicate 80 0))).1.max_depth ∧
        1 ≤ (ForestParams.default.read Endian.little
            (IStream.ofBytes (List.replicate 80 0))).1.n_trees) := by
  decide

/-- C15, amended: the default-constructed block satisfies `max_depth ≥ 1` and
`n_trees ≥ 1` and has `n_classes = 0` and `n_features = 0`; `read` on an
80-byte input returns, without any validation, the block those bytes encode:
every field is in the range of its machine type, writing the block gives the
input back, and the invariant holds of the block exactly when it holds of
the four encoded values. -/
theorem ForestParams.read_no_validation (e : Endian) (q : ForestParams) (bs : List Byte)
    (hlen : bs.length = 80) :
    (1 ≤ ForestParams.default.max_depth ∧ 1 ≤ ForestParams.default.n_trees ∧
      ForestParams.default.n_classes = 0 ∧ ForestParams.default.n_features = 0) ∧
    (q.read e (IStream.ofBytes bs)).1.Valid ∧
    (((q.read e (IStream.ofBytes bs)).1).write e []).2 = bs ∧
    ((2 ≤ (q.read e (IStream.ofBytes bs)).1.n_classes ∧
        1 ≤ (q.read e (IStream.ofBytes bs)).1.n_features ∧
        1 ≤ (q.read e (IStream.ofBytes bs)).1.max_depth ∧
        1 ≤ (q.read e (IStream.ofBytes bs)).1.n_trees) ↔
      (2 ≤ objValue e (bs.take 8) ∧ 1 ≤ objValue e ((bs.drop 8).take 8) ∧
        1 ≤ objValue e ((bs.drop 32).take 8) ∧ 1 ≤ objValue e ((bs.drop 40).take 8))) := by
  rw [ForestParams.read_eighty e q bs hlen]
  have v8 : ∀ k, objValue e ((bs.drop k).take 8) < 2 ^ 64 := fun k => by
    have := objValue_slice_lt e bs k 8
    norm_num at this ⊢
    exact this
  have v4 : ∀ k, objValue e ((bs.drop k).take 4) < 2 ^ 32 := fun k => by
    have := objValue_slice_lt e bs k 4
    norm_num at this ⊢
    exact this
  refine ⟨by decide, ?_, ?_, ?_⟩
  · refine ⟨v8 0, v8 8, v8 16, v8 24, v8 32, v8 40, v8 48, v4 56, v8 60, v8 68, ?_, ?_⟩
    · have := v4 76
      simp only [bitsInt]
      split_ifs <;> omega
    · have := v4 76
      simp only [bitsInt]
      split_ifs <;> omega
  · rw [ForestParams.write_snd]
    simp only
    rw [intBits_bitsInt _ (v4 76)]
    rw [objBytes_objValue_slice e bs 0 8 (by omega), objBytes_objValue_slice e bs 8 8 (by omega),
      objBytes_objValue_slice e bs 16 8 (by omega),
      objBytes_objValue_slice e bs 24 8 (by omega),
      objBytes_objValue_slice e bs 32 8 (by omega),
      objBytes_objValue_slice e bs 40 8 (by omega),
      objBytes_objValue_slice e bs 48 8 (by omega),
      objBytes_objValue_slice e bs 56 4 (by omega),
      objBytes_objValue_slice e bs 60 8 (by omega),
      objBytes_objValue_slice e bs 68 8 (by omega),
      objBytes_objValue_slice e bs 76 4 (by omega)]
    have e11 : (bs.drop 76).take 4 = bs.drop 76 :=
      List.take_of_length_le (by simp only [List.length_drop]; omega)
    rw [e11, slice_cons bs 68 8, slice_cons bs 60 8, slice_cons bs 56 4, slice_cons bs 48 8,
      slice_cons bs 40 8, slice_cons bs 32 8, slice_cons bs 24 8, slice_cons bs 16 8,
      slice_cons bs 8 8, slice_cons bs 0 8, List.drop_zero]
  · simp only [List.drop_zero]

/-- Witness for C15 (amended): the 80 bytes written for a block with four
classes and sixteen features are read back into the default block. -/
theorem ForestParams.read_no_validation_witness :
    (({ ForestParams.default with n_classes := 4, n_features := 16 }
      : ForestParams).write Endian.little []).2.length = 80 ∧
    (ForestParams.default.read Endian.little (IStream.ofBytes
      (({ ForestParams.default with n_classes := 4, n_features := 16 }
        : ForestParams).write Endian.little []).2)).1.Valid :=
  ⟨by decide, (ForestParams.read_no_validation Endian.little ForestParams.default _
    (by decide)).2.1⟩

/-! ## Fitting and inference use the same projection -/

theorem map_points_single {α : Type} (fval : Int → Option α) (labels : DataView2D Int)
    (r c : Int) (x : α) (d : α × Int) (hx : fval r = some x) (hc : labels.get r 0 = some c) :
    map_points_loop fval labels [r] 1 [d] = some [(x, c)] := by
  simp [map_points_loop, forUpTo, forLoop, hx, hc]

theorem classify_between {α : Type} [Preorder α] [DecidableRel ((· < ·) : α → α → Prop)]
    (t x a b : α) (hat : a ≤ t) (htb : t < b) :
    (x ≤ a → decide (t < x) = false) ∧ (b ≤ x → decide (t < x) = true) := by
  constructor
  · intro hxa
    exact decide_eq_false (not_lt_of_le (le_trans hxa hat))
  · intro hbx
    exact decide_eq_true (lt_of_lt_of_le htb hbx)

/-- C16: for each of the three kinds of splitter, a row `r` of the matrix on
which the splitter's scalar value `x` is defined, and any threshold `t`:
`map_points` records `x` for row `r` whatever the threshold, and
`classify_sample` with threshold `t` returns true on that row exactly when
`t < x`.  Hence, when `a ≤ t < b`, every sample whose value is at most `a`
goes left and every sample whose value is at least `b` goes right. -/
theorem classify_sample_matches_map_points {α : Type} [Zero α] [Add α] [Mul α] [Preorder α]
    [DecidableRel ((· < ·) : α → α → Prop)] (samples : DataView2D α)
    (labels : DataView2D Int) (r c : Int) (row : List α) (d : α × Int) (t : α)
    (hrow : samples.row_pointer r = some row) (hc : labels.get r 0 = some c) :
    (∀ (s : AxisAlignedSplitter α) (x : α), idx? row s.feature = some x →
      s.map_points samples labels [r] 1 [d] = some [(x, c)] ∧
      (s.set_threshold t).map_points samples labels [r] 1 [d] = some [(x, c)] ∧
      ((s.set_threshold t).classify_sample row = some true ↔ t < x) ∧
      ((s.set_threshold t).classify_sample row = some false ↔ ¬ t < x) ∧
      ∀ a b : α, a ≤ t → t < b →
        (x ≤ a → (s.set_threshold t).classify_sample row = some false) ∧
        (b ≤ x → (s.set_threshold t).classify_sample row = some true)) ∧
    (∀ (s : LinearSplitter α) (x : α), inner_product s.w row 0 = some x →
      s.map_points samples labels [r] 1 [d] = some [(x, c)] ∧
      (s.set_threshold t).map_points samples labels [r] 1 [d] = some [(x, c)] ∧
      ((s.set_threshold t).classify_sample row = some true ↔ t < x) ∧
      ((s.set_threshold t).classify_sample row = some false ↔ ¬ t < x) ∧
      ∀ a b : α, a ≤ t → t < b →
        (x ≤ a → (s.set_threshold t).classify_sample row = some false) ∧
        (b ≤ x → (s.set_threshold t).classify_sample row = some true)) ∧
    (∀ (s : QuadraticSplitter α) (x : α), s.map_sample row = some x →
      s.map_points samples labels [r] 1 [d] = some [(x, c)] ∧
      (s.set_threshold t).map_points samples labels [r] 1 [d] = some [(x, c)] ∧
      ((s.set_threshold t).classify_sample row = some true ↔ t < x) ∧
      ((s.set_threshold t).classify_sample row = some false ↔ ¬ t < x) ∧
      ∀ a b : α, a ≤ t → t < b →
        (x ≤ a → (s.set_threshold t).classify_sample row = some false) ∧
        (b ≤ x → (s.set_threshold t).classify_sample row = some true)) := by
  refine ⟨?_, ?_, ?_⟩
  · intro s x hx
    have hget : samples.get r s.feature = some x := by
      rw [DataView2D.get_eq_row, hrow]
      exact hx
    have hcl : (s.set_threshold t).classify_sample row = some (decide (t < x)) := by
      simp [AxisAlignedSplitter.classify_sample, AxisAlignedSplitter.set_threshold, hx]
    refine ⟨map_points_single _ labels r c x d hget hc, map_points_single _ labels r c x d hget hc,
      by rw [hcl]; simp, by rw [hcl]; simp, ?_⟩
    intro a b hat htb
    rw [hcl]
    obtain ⟨h1, h2⟩ := classify_between t x a b hat htb
    exact ⟨fun h => by rw [h1 h], fun h => by rw [h2 h]⟩
  · intro s x hx
    have hval : (samples.row_pointer r).bind (fun row => inner_product s.w row 0) = some x := by
      rw [hrow]
      exact hx
    have hcl : (s.set_threshold t).classify_sample row = some (decide (t < x)) := by
      simp [LinearSplitter.classify_sample, LinearSplitter.set_threshold, hx]
    refine ⟨map_points_single _ labels r c x d hval hc, map_points_single _ labels r c x d hval hc,
      by rw [hcl]; simp, by rw [hcl]; simp, ?_⟩
    intro a b hat htb
    rw [hcl]
    obtain ⟨h1, h2⟩ := classify_between t x a b hat htb
    exact ⟨fun h => by rw [h1 h], fun h => by rw [h2 h]⟩
  · intro s x hx
    have hval : (samples.row_pointer r).bind s.map_sample = some x := by
      rw [hrow]
      exact hx
    have hx2 : (s.set_threshold t).map_sample row = some x := hx
    have hcl : (s.set_threshold t).classify_sample row = some (decide (t < x)) := by
      unfold QuadraticSplitter.classify_sample
      rw [hx2]
      rfl
    refine ⟨map_points_single _ labels r c x d hval hc, map_points_single _ labels r c x d hval hc,
      by rw [hcl]; simp, by rw [hcl]; simp, ?_⟩
    intro a b hat htb
    rw [hcl]
    obtain ⟨h1, h2⟩ := classify_between t x a b hat htb
    exact ⟨fun h => by rw [h1 h], fun h => by rw [h2 h]⟩

/-- Witness for C16: row 1 of a matrix with two rows over the integers,
threshold 4, for a splitter of each kind. -/
theorem classify_sample_matches_map_points_witness :
    (⟨[3, 2, 4, 5], 2, 2⟩ : DataView2D Int).row_pointer 1 = some [4, 5] ∧
    ((⟨1, 0⟩ : AxisAlignedSplitter Int).set_threshold 4).classify_sample [4, 5] = some true ∧
    ((⟨[1, 0], 0⟩ : LinearSplitter Int).set_threshold 4).classify_sample [4, 5] = some false ∧
    ((⟨1, [1, 1], 0⟩ : QuadraticSplitter Int).set_threshold 4).classify_sample [4, 5]
      = some true := by
  obtain ⟨hA, hL, hQ⟩ := classify_sample_matches_map_points (⟨[3, 2, 4, 5], 2, 2⟩ : DataView2D Int)
    ⟨[7, 8], 2, 1⟩ 1 8 [4, 5] (0, 0) 4 rfl rfl
  refine ⟨rfl, ?_, ?_, ?_⟩
  · exact (hA ⟨1, 0⟩ 5 rfl).2.2.1.2 (by decide)
  · exact (hL ⟨[1, 0], 0⟩ 4 rfl).2.2.2.1.2 (by decide)
  · exact (hQ ⟨1, [1, 1], 0⟩ 20 rfl).2.2.1.2 (by decide)

/-! ## The axis-aligned split generator: the target of `init` -/

theorem card_image_mod_range (n k : Nat) (h : k ≤ n) :
    ((Finset.range k).image fun i => ((i % n : Nat) : Int)).card = k := by
  rw [Finset.card_image_of_injOn, Finset.card_range]
  intro a ha b hb hab
  simp only [Finset.coe_range, Set.mem_Iio] at ha hb
  have h1 : a % n = a := Nat.mod_eq_of_lt (by omega)
  have h2 : b % n = b := Nat.mod_eq_of_lt (by omega)
  simp only [h1, h2, Nat.cast_inj] at hab
  exact hab

/-- C17: the target `n_used_features` of the rejection loop in `init` is the
value the loop of `init` runs with.  On a matrix with at least one column it
is at least 1 and at most the column count, there is a random source for
which `init` finishes, and whenever `init` finishes the selected set is not
empty and every later `gen_proposal` call returns a splitter.  On a matrix
without columns the target is 0 and `init` returns at once with the empty
set. -/
theorem AxisAlignedRandomSplitGenerator.n_used_features_bounds {α : Type} [Neg α] [One α]
    (g : AxisAlignedRandomSplitGenerator) (samples : DataView2D α) :
    (∀ fuel gen, AxisAlignedRandomSplitGenerator.init fuel g samples gen
      = (AxisAlignedRandomSplitGenerator.init_loop ⟨0, (samples.cols : Int) - 1⟩
          (AxisAlignedRandomSplitGenerator.n_used_features samples) fuel ⟨[]⟩ gen).map
          fun r => (⟨r.1, 0⟩, r.2)) ∧
    (1 ≤ samples.cols →
      1 ≤ AxisAlignedRandomSplitGenerator.n_used_features samples ∧
      AxisAlignedRandomSplitGenerator.n_used_features samples ≤ samples.cols ∧
      (∃ r, AxisAlignedRandomSplitGenerator.init
        (AxisAlignedRandomSplitGenerator.n_used_features samples) g samples ⟨fun i => i⟩
          = some r) ∧
      ∀ fuel gen r, AxisAlignedRandomSplitGenerator.init fuel g samples gen = some r →
        1 ≤ r.1.features.size ∧
        ∀ (k : Nat) (gen2 : RandomGen),
          ∃ out : AxisAlignedSplitter α × AxisAlignedRandomSplitGenerator × RandomGen,
            AxisAlignedRandomSplitGenerator.nth_proposal k r.1 gen2 = some out) ∧
    (samples.cols = 0 →
      AxisAlignedRandomSplitGenerator.n_used_features samples = 0 ∧
      ∀ fuel gen, AxisAlignedRandomSplitGenerator.init fuel g samples gen
        = some (⟨⟨[]⟩, 0⟩, gen)) := by
  have hnu : AxisAlignedRandomSplitGenerator.n_used_features samples = Nat.sqrt samples.cols := by
    simp [AxisAlignedRandomSplitGenerator.n_used_features]
  refine ⟨fun fuel gen => rfl, ?_, ?_⟩
  · intro hn
    rw [hnu]
    have hpos : 1 ≤ Nat.sqrt samples.cols := Nat.sqrt_pos.2 (by omega)
    refine ⟨hpos, Nat.sqrt_le_self _, ?_, ?_⟩
    · obtain ⟨_, h2⟩ := AxisAlignedRandomSplitGenerator.init_outcome (Nat.sqrt samples.cols) g
        samples ⟨fun i => i⟩ hn
      exact h2 (by rw [card_image_mod_range _ _ (Nat.sqrt_le_self _)])
    · intro fuel gen r hr
      obtain ⟨h1, _⟩ := AxisAlignedRandomSplitGenerator.init_outcome fuel g samples gen hn
      obtain ⟨_, _, hsize, hit⟩ := h1 r hr
      have hm : 1 ≤ r.1.features.size := by rw [hsize]; exact hpos
      refine ⟨hm, ?_⟩
      intro k gen2
      exact ⟨_, AxisAlignedRandomSplitGenerator.nth_proposal_eq k r.1 gen2 hm (by omega)⟩
  · intro h0
    rw [hnu, h0]
    refine ⟨Nat.sqrt_zero, ?_⟩
    intro fuel gen
    simp only [AxisAlignedRandomSplitGenerator.init, Int.toNat_ofNat, FeatureSet.clear, h0,
      Nat.sqrt_zero, AxisAlignedRandomSplitGenerator.init_loop_target_zero, Option.map_some']

/-- C18: after `init` on a matrix with at least one column, call number
`k + 1` of `gen_proposal` returns a splitter whose feature index lies in
`[0, n_features)`, so it is not `-1`; on every row of a well-formed matrix
with that column count the splitter's feature is inside the row, both for
`classify_sample` and for the matrix access of `map_points`. -/
theorem AxisAlignedRandomSplitGenerator.gen_proposal_feature_in_range {α : Type} [Neg α]
    [One α] [LT α] [DecidableRel ((· < ·) : α → α → Prop)] (fuel : Nat)
    (g : AxisAlignedRandomSplitGenerator) (samples : DataView2D α) (gen : RandomGen)
    (r : AxisAlignedRandomSplitGenerator × RandomGen) (k : Nat) (gen2 : RandomGen)
    (hn : 1 ≤ samples.cols)
    (hr : AxisAlignedRandomSplitGenerator.init fuel g samples gen = some r) :
    ∃ out : AxisAlignedSplitter α × AxisAlignedRandomSplitGenerator × RandomGen,
      AxisAlignedRandomSplitGenerator.nth_proposal k r.1 gen2 = some out ∧
      0 ≤ out.1.feature ∧ out.1.feature < (samples.cols : Int) ∧ out.1.feature ≠ -1 ∧
      (samples.WF → ∀ (ri : Int) (row : List α), samples.row_pointer ri = some row →
        ∃ x, idx? row out.1.feature = some x ∧ samples.get ri out.1.feature = some x ∧
          out.1.classify_sample row = some (decide (out.1.threshold < x))) := by
  obtain ⟨h1, _⟩ := AxisAlignedRandomSplitGenerator.init_outcome fuel g samples gen hn
  obtain ⟨_, hrange, hsize, hit⟩ := h1 r hr
  have hm : 1 ≤ r.1.features.size := by rw [hsize]; exact Nat.sqrt_pos.2 (by omega)
  have hlt : (r.1.it + k) % r.1.features.size < r.1.features.elems.length := Nat.mod_lt _ hm
  have hmem : r.1.features.elems.getD ((r.1.it + k) % r.1.features.size) 0
      ∈ r.1.features.elems := by
    rw [List.getD_eq_getElem _ _ hlt]
    exact List.getElem_mem _
  obtain ⟨hf0, hf1⟩ := hrange _ hmem
  refine ⟨_, AxisAlignedRandomSplitGenerator.nth_proposal_eq k r.1 gen2 hm (by omega),
    hf0, hf1, by intro h; simp only [AxisAlignedSplitter.new] at hf0 h; omega, ?_⟩
  intro hwf ri row hrow
  have hlen := DataView2D.row_pointer_length samples ri row hwf hrow
  simp only [AxisAlignedSplitter.new] at hf0 hf1 ⊢
  have hidx : (r.1.features.elems.getD ((r.1.it + k) % r.1.features.size) 0).toNat
      < row.length := by rw [hlen]; omega
  refine ⟨row[(r.1.features.elems.getD ((r.1.it + k) % r.1.features.size) 0).toNat], ?_, ?_, ?_⟩
  · simp only [idx?, hf0, if_true, List.getElem?_eq_getElem hidx]
  · rw [DataView2D.get_eq_row, hrow]
    simp only [Option.some_bind, idx?, hf0, if_true, List.getElem?_eq_getElem hidx]
  · simp only [AxisAlignedSplitter.classify_sample, idx?, hf0, if_true,
      List.getElem?_eq_getElem hidx, Option.map_some']

/-! ## The reads of `QuadraticSplitter::map_sample` -/

theorem forLoop_map {σ τ : Type} (proj : τ → σ) (bodyT : Nat → τ → Option τ)
    (body : Nat → σ → Option σ) (hsim : ∀ i t, (bodyT i t).map proj = body i (proj t))
    (k i : Nat) (t : τ) :
    (forLoop bodyT k i t).map proj = forLoop body k i (proj t) := by
  induction k generalizing i t with
  | zero => rfl
  | succ k ih =>
    rw [forLoop, forLoop, ← hsim i t]
    cases h : bodyT i t with
    | none => rfl
    | some t1 =>
      simp only [Option.some_bind, Option.map_some']
      exact ih (i + 1) t1

theorem QuadraticSplitter.map_sample_traced_result {α : Type} [Zero α] [Add α] [Mul α]
    (s : QuadraticSplitter α) (v : List α) :
    (s.map_sample_traced v).map (fun st => st.result) = s.map_sample v := by
  unfold QuadraticSplitter.map_sample_traced QuadraticSplitter.map_sample forUpTo
  have h1 := forLoop_map (fun st : MapSampleState α => st.result)
    (fun i_feature (st : MapSampleState α) =>
      (s.w[i_feature]?).bind fun wi =>
      (v[i_feature]?).bind fun vi =>
      some { result := st.result + wi * vi
             i_feature := i_feature + 1
             w_reads := st.w_reads ++ [i_feature]
             v_reads := st.v_reads ++ [i_feature] })
    (fun i_feature result =>
      (s.w[i_feature]?).bind fun wi =>
      (v[i_feature]?).bind fun vi =>
      some (result + wi * vi))
    (by
      intro i t
      dsimp only
      cases s.w[i]? <;> cases v[i]? <;> rfl)
    s.n_features.toNat 0 { result := 0, i_feature := 0, w_reads := [], v_reads := [] }
  rw [← h1]
  cases forLoop (fun i_feature (st : MapSampleState α) =>
      (s.w[i_feature]?).bind fun wi =>
      (v[i_feature]?).bind fun vi =>
      some { result := st.result + wi * vi
             i_feature := i_feature + 1
             w_reads := st.w_reads ++ [i_feature]
             v_reads := st.v_reads ++ [i_feature] })
    s.n_features.toNat 0 { result := 0, i_feature := 0, w_reads := [], v_reads := [] } with
  | none => rfl
  | some st =>
    simp only [Option.some_bind, Option.map_some']
    have hinner : ∀ (i_1 : Nat) (k j : Nat) (t : MapSampleState α),
        (forLoop (fun i_2 (st : MapSampleState α) =>
          (s.w[st.i_feature]?).bind fun wk =>
          (v[i_1]?).bind fun v1 =>
          (v[i_2]?).bind fun v2 =>
          if st.i_feature + 1 < 2 ^ 31 then
            some { result := st.result + wk * v1 * v2
                   i_feature := st.i_feature + 1
                   w_reads := st.w_reads ++ [st.i_feature]
                   v_reads := st.v_reads ++ [i_1, i_2] }
          else none) k j t).map
          (fun st => (st.result, st.i_feature))
        = forLoop (fun i_2 (st : α × Nat) =>
          (s.w[st.2]?).bind fun wk =>
          (v[i_1]?).bind fun v1 =>
          (v[i_2]?).bind fun v2 =>
          if st.2 + 1 < 2 ^ 31 then some (st.1 + wk * v1 * v2, st.2 + 1) else none) k j (t.result, t.i_feature) := by
      intro i_1 k j t
      exact forLoop_map (fun st : MapSampleState α => (st.result, st.i_feature)) _ _ (by
        intro i t
        dsimp only
        by_cases hc : t.i_feature + 1 < 2 ^ 31 <;> simp only [hc, if_true, if_false] <;>
          cases s.w[t.i_feature]? <;> cases v[i_1]? <;> cases v[i]? <;> rfl) k j t
    have h2 := forLoop_map (fun st : MapSampleState α => (st.result, st.i_feature))
      (fun i_1 (st : MapSampleState α) =>
        forLoop (fun i_2 (st : MapSampleState α) =>
          (s.w[st.i_feature]?).bind fun wk =>
          (v[i_1]?).bind fun v1 =>
          (v[i_2]?).bind fun v2 =>
          if st.i_feature + 1 < 2 ^ 31 then
            some { result := st.result + wk * v1 * v2
                   i_feature := st.i_feature + 1
                   w_reads := st.w_reads ++ [st.i_feature]
                   v_reads := st.v_reads ++ [i_1, i_2] }
          else none) s.n_features.toNat 0 st)
      (fun i_1 (st : α × Nat) =>
        forLoop (fun i_2 (st : α × Nat) =>
          (s.w[st.2]?).bind fun wk =>
          (v[i_1]?).bind fun v1 =>
          (v[i_2]?).bind fun v2 =>
          if st.2 + 1 < 2 ^ 31 then some (st.1 + wk * v1 * v2, st.2 + 1) else none) s.n_features.toNat 0 st)
      (fun i t => hinner i s.n_features.toNat 0 t)
      s.n_features.toNat 0 { st with i_feature := s.n_features.toNat }
    rw [← h2, Option.map_map]
    rfl

theorem traced_linear_part {α : Type} [Add α] [Mul α] (w v : List α) (k i0 : Nat)
    (st : MapSampleState α) (hw : i0 + k ≤ w.length) (hv : i0 + k ≤ v.length) :
    ∃ st1, forLoop (fun i_feature (st : MapSampleState α) =>
        (w[i_feature]?).bind fun wi =>
        (v[i_feature]?).bind fun vi =>
        some { result := st.result + wi * vi
               i_feature := i_feature + 1
               w_reads := st.w_reads ++ [i_feature]
               v_reads := st.v_reads ++ [i_feature] }) k i0 st = some st1 ∧
      st1.w_reads = st.w_reads ++ List.range' i0 k ∧
      st1.v_reads = st.v_reads ++ List.range' i0 k := by
  induction k generalizing i0 st with
  | zero => exact ⟨st, rfl, by simp, by simp⟩
  | succ k ih =>
    have h1 : i0 < w.length := by omega
    have h2 : i0 < v.length := by omega
    obtain ⟨st1, hrun, hwr, hvr⟩ := ih (i0 + 1)
      { result := st.result + w[i0] * v[i0]
        i_feature := i0 + 1
        w_reads := st.w_reads ++ [i0]
        v_reads := st.v_reads ++ [i0] } (by omega) (by omega)
    refine ⟨st1, ?_, ?_, ?_⟩
    · rw [forLoop]
      refine (bind_of_eq_some _ _ _ ?_).trans hrun
      simp only [List.getElem?_eq_getElem h1, List.getElem?_eq_getElem h2, Option.some_bind]
    · rw [hwr, List.range'_succ, List.append_assoc, List.singleton_append]
    · rw [hvr, List.range'_succ, List.append_assoc, List.singleton_append]

theorem traced_inner {α : Type} [Add α] [Mul α] (w v : List α) (i1 k j0 : Nat)
    (st : MapSampleState α) (hi : i1 < v.length) (hw : st.i_feature + k ≤ w.length)
    (hv : j0 + k ≤ v.length) (hb : st.i_feature + k < 2 ^ 31) :
    ∃ st1, forLoop (fun i_2 (st : MapSampleState α) =>
        (w[st.i_feature]?).bind fun wk =>
        (v[i1]?).bind fun v1 =>
        (v[i_2]?).bind fun v2 =>
        if st.i_feature + 1 < 2 ^ 31 then
          some { result := st.result + wk * v1 * v2
                 i_feature := st.i_feature + 1
                 w_reads := st.w_reads ++ [st.i_feature]
                 v_reads := st.v_reads ++ [i1, i_2] }
        else none) k j0 st = some st1 ∧
      st1.i_feature = st.i_feature + k ∧
      st1.w_reads = st.w_reads ++ List.range' st.i_feature k ∧
      ∀ i ∈ st1.v_reads, i ∈ st.v_reads ∨ i = i1 ∨ i < j0 + k := by
  induction k generalizing j0 st with
  | zero => exact ⟨st, rfl, rfl, by simp, fun i h => Or.inl h⟩
  | succ k ih =>
    have h1 : st.i_feature < w.length := by omega
    have h2 : j0 < v.length := by omega
    have h3 : st.i_feature + 1 < 2 ^ 31 := by omega
    obtain ⟨st1, hrun, hif, hwr, hvr⟩ := ih (j0 + 1)
      { result := st.result + w[st.i_feature] * v[i1] * v[j0]
        i_feature := st.i_feature + 1
        w_reads := st.w_reads ++ [st.i_feature]
        v_reads := st.v_reads ++ [i1, j0] } (by simp only; omega) (by omega)
      (by simp only; omega)
    refine ⟨st1, ?_, ?_, ?_, ?_⟩
    · rw [forLoop]
      refine (bind_of_eq_some _ _ _ ?_).trans hrun
      simp only [List.getElem?_eq_getElem h1, List.getElem?_eq_getElem h2,
        List.getElem?_eq_getElem hi, Option.some_bind, h3, if_true]
    · rw [hif]
      simp only
      omega
    · rw [hwr, List.range'_succ, List.append_assoc, List.singleton_append]
    · intro i hmem
      rcases hvr i hmem with h | h | h
      · simp only [List.mem_append, List.mem_cons, List.mem_singleton, List.not_mem_nil,
          or_false] at h
        rcases h with h | h | h
        · exact Or.inl h
        · exact Or.inr (Or.inl h)
        · exact Or.inr (Or.inr (by omega))
      · exact Or.inr (Or.inl h)
      · exact Or.inr (Or.inr (by omega))

theorem traced_outer {α : Type} [Add α] [Mul α] (w v : List α) (F k i0 : Nat)
    (st : MapSampleState α) (hF : F ≤ v.length) (hw : st.i_feature + k * F ≤ w.length)
    (hv : i0 + k ≤ F) (hb : st.i_feature + k * F < 2 ^ 31) :
    ∃ st1, forLoop (fun i_1 (st : MapSampleState α) =>
        forUpTo (F : Int) (fun i_2 (st : MapSampleState α) =>
          (w[st.i_feature]?).bind fun wk =>
          (v[i_1]?).bind fun v1 =>
          (v[i_2]?).bind fun v2 =>
          if st.i_feature + 1 < 2 ^ 31 then
            some { result := st.result + wk * v1 * v2
                   i_feature := st.i_feature + 1
                   w_reads := st.w_reads ++ [st.i_feature]
                   v_reads := st.v_reads ++ [i_1, i_2] }
          else none) st) k i0 st = some st1 ∧
      st1.i_feature = st.i_feature + k * F ∧
      st1.w_reads = st.w_reads ++ List.range' st.i_feature (k * F) ∧
      ∀ i ∈ st1.v_reads, i ∈ st.v_reads ∨ i < F := by
  induction k generalizing i0 st with
  | zero => exact ⟨st, rfl, by simp, by simp, fun i h => Or.inl h⟩
  | succ k ih =>
    have hmul : (k + 1) * F = F + k * F := by ring
    obtain ⟨st0, hrun0, hif0, hwr0, hvr0⟩ := traced_inner w v i0 F 0 st (by omega) (by omega)
      (by omega) (by omega)
    obtain ⟨st1, hrun, hif, hwr, hvr⟩ := ih (i0 + 1) st0 (by rw [hif0]; omega) (by omega)
      (by rw [hif0]; omega)
    refine ⟨st1, ?_, ?_, ?_, ?_⟩
    · rw [forLoop]
      refine (bind_of_eq_some _ _ st0 ?_).trans hrun
      simpa only [forUpTo, Int.toNat_ofNat] using hrun0
    · rw [hif, hif0]
      omega
    · rw [hwr, hwr0, hif0, List.append_assoc, List.range'_append_1, hmul, Nat.add_comm]
    · intro i hmem
      rcases hvr i hmem with h | h
      · rcases hvr0 i h with h | h | h
        · exact Or.inl h
        · exact Or.inr (by omega)
        · exact Or.inr (by omega)
      · exact Or.inr h

theorem QuadraticSplitter.map_sample_traced_spec {α : Type} [Zero α] [Add α] [Mul α] (F : Nat)
    (s : QuadraticSplitter α) (v : List α) (hn : s.n_features = F)
    (hw : F + F * F ≤ s.w.length) (hv : F ≤ v.length) (hb : F + F * F < 2 ^ 31) :
    ∃ st, s.map_sample_traced v = some st ∧ s.map_sample v = some st.result ∧
      st.w_reads = List.range (F + F * F) ∧ ∀ i ∈ st.v_reads, i < F := by
  obtain ⟨st0, hrun0, hwr0, hvr0⟩ := traced_linear_part s.w v F 0
    { result := (0 : α), i_feature := 0, w_reads := [], v_reads := [] } (by omega) (by omega)
  obtain ⟨st1, hrun1, _, hwr1, hvr1⟩ := traced_outer s.w v F F 0
    { st0 with i_feature := F } hv (by simp only; omega) (by omega) (by simp only; omega)
  have htr : s.map_sample_traced v = some st1 := by
    unfold QuadraticSplitter.map_sample_traced
    rw [hn]
    simp only [forUpTo, Int.toNat_ofNat]
    rw [hrun0]
    simp only [Option.some_bind]
    simpa only [forUpTo, Int.toNat_ofNat] using hrun1
  refine ⟨st1, htr, ?_, ?_, ?_⟩
  · rw [← QuadraticSplitter.map_sample_traced_result, htr]
    rfl
  · have happ := List.range'_append_1 0 F (F * F)
    rw [Nat.zero_add] at happ
    rw [hwr1]
    simp only
    rw [hwr0, List.nil_append, happ, List.range_eq_range', Nat.add_comm]
  · intro i hmem
    rcases hvr1 i hmem with h | h
    · simp only [hvr0, List.nil_append, List.mem_range'_1] at h
      omega
    · exact h

/-- C19, counterexample: with `F = 46341` features, `F + F * F` weights and
`F` feature values the run of `map_sample` is undefined: its `int` running
index cannot pass `INT_MAX = 2147483647`, so the indices from `2147483648`
up to `F + F * F - 1 = 2147534621` are not read. -/
theorem QuadraticSplitter.map_sample_reads_overflow :
    (2 : Nat) ^ 31 < 46341 + 46341 * 46341 ∧
    (⟨46341, List.replicate (46341 + 46341 * 46341) 0, 0⟩ : QuadraticSplitter Int).w.length
      = 46341 + 46341 * 46341 ∧
    (List.replicate 46341 (0 : Int)).length = 46341 ∧
    (⟨46341, List.replicate (46341 + 46341 * 46341) 0, 0⟩ :
      QuadraticSplitter Int).map_sample_traced (List.replicate 46341 0) = none := by
  refine ⟨by norm_num, List.length_replicate _ _, List.length_replicate _ _, ?_⟩
  have h := QuadraticSplitter.map_sample_overflow 46341
    (⟨46341, List.replicate (46341 + 46341 * 46341) 0, 0⟩ : QuadraticSplitter Int)
    (List.replicate 46341 0) rfl (List.length_replicate _ _) (List.length_replicate _ _)
    (by norm_num) (by norm_num)
  rw [← QuadraticSplitter.map_sample_traced_result] at h
  exact Option.map_eq_none'.1 h

/-- C19, amended: with `n_features = F` where `F + F * F ≤ INT_MAX` (that is
`F ≤ 46340`), at least `F + F * F` weights and at least `F` feature values,
`map_sample` returns, its reads of `w` are the indices
`0, 1, …, F + F * F - 1` in this order (each index below `F + F * F` once, no
other index), and it reads `v` only at indices below `F`.  For a splitter
returned by `QuadraticSplitGenerator::gen_proposal` after `init` on a
well-formed matrix with `F` columns this holds on every row of the matrix,
so every access is in bounds. -/
theorem QuadraticSplitter.map_sample_reads {α : Type} [Zero α] [Add α] [Mul α] (F : Nat)
    (s : QuadraticSplitter α) (v : List α) (hn : s.n_features = F)
    (hw : F + F * F ≤ s.w.length) (hv : F ≤ v.length) (hb : F + F * F < 2 ^ 31) :
    (∃ st, s.map_sample_traced v = some st ∧ s.map_sample v = some st.result ∧
      st.w_reads = List.range (F + F * F) ∧ st.w_reads.Nodup ∧
      (∀ i, i ∈ st.w_reads ↔ i < F + F * F) ∧ ∀ i ∈ st.v_reads, i < F) ∧
    ∀ (g : QuadraticSplitGenerator) (samples : DataView2D α) (labels : DataView2D Int)
      (sample_idxes : List Int) (n_samples : Int) (n_classes : Nat) (gen gen2 : RandomGen)
      (dist : NormalDist α) (indeterminate : α)
      (out : QuadraticSplitter α × QuadraticSplitGenerator × RandomGen) (ri : Int)
      (row : List α),
      samples.WF → samples.cols = F → samples.row_pointer ri = some row →
      (g.init samples labels sample_idxes n_samples n_classes gen).1.gen_proposal dist
        indeterminate gen2 = some out →
      out.1.w.length = F + F * F ∧ row.length = F ∧
      ∃ st, out.1.map_sample_traced row = some st ∧ out.1.map_sample row = some st.result ∧
        (∀ i ∈ st.w_reads, i < out.1.w.length) ∧ ∀ i ∈ st.v_reads, i < row.length := by
  constructor
  · obtain ⟨st, h1, h2, h3, h4⟩ := QuadraticSplitter.map_sample_traced_spec F s v hn hw hv hb
    refine ⟨st, h1, h2, h3, ?_, ?_, h4⟩
    · rw [h3]
      exact List.nodup_range _
    · intro i
      rw [h3, List.mem_range]
  · intro g samples labels sample_idxes n_samples n_classes gen gen2 dist indeterminate out ri
      row hwf hcols hrow hout
    have hlen := DataView2D.row_pointer_length samples ri row hwf hrow
    obtain ⟨ws, gen1, hrun, hwlen, _, _⟩ := fill_weights_spec dist
      (List.replicate (samples.cols + samples.cols * samples.cols) (0 : α)).length
      (List.replicate (samples.cols + samples.cols * samples.cols) (0 : α)) gen2 (le_refl _)
    simp only [QuadraticSplitGenerator.init, QuadraticSplitGenerator.gen_proposal,
      Option.some_bind, hrun, Option.map_some', Option.some.injEq] at hout
    subst hout
    have hw2 : ws.length = F + F * F := by
      rw [hwlen, List.length_replicate, hcols]
    obtain ⟨st, h1, h2, h3, h4⟩ := QuadraticSplitter.map_sample_traced_spec F
      (QuadraticSplitter.new (samples.cols : Int) ws indeterminate) row
      (by rw [← hcols]; rfl) (by rw [← hw2]; exact le_refl _) (by omega) hb
    refine ⟨hw2, by omega, st, h1, h2, ?_, ?_⟩
    · intro i hi
      rw [h3, List.mem_range] at hi
      show i < ws.length
      omega
    · intro i hi
      have := h4 i hi
      omega

/-- Witness for C19 (amended): two features over the integers; the reads of
`w` are `0, …, 5` and the reads of `v` are at `0` and `1`. -/
theorem QuadraticSplitter.map_sample_reads_witness :
    ((⟨2, [1, 10, 100, 1000, 10000, 100000], 0⟩ : QuadraticSplitter Int).map_sample_traced
        [2, 3]).map (fun st => (st.w_reads, st.v_reads))
      = some ([0, 1, 2, 3, 4, 5], [0, 1, 0, 0, 0, 1, 1, 0, 1, 1]) ∧
    ∃ st, (⟨2, [1, 10, 100, 1000, 10000, 100000], 0⟩ : QuadraticSplitter Int).map_sample_traced
        [2, 3] = some st ∧ st.w_reads = List.range (2 + 2 * 2) := by
  obtain ⟨⟨st, h1, _, h3, _⟩, _⟩ := QuadraticSplitter.map_sample_reads 2
    (⟨2, [1, 10, 100, 1000, 10000, 100000], 0⟩ : QuadraticSplitter Int) [2, 3] rfl
    (by decide) (by decide) (by decide)
  exact ⟨by decide, st, h1, h3⟩

/-- Witness for C17: a matrix with 16 columns and a matrix without
columns. -/
theorem AxisAlignedRandomSplitGenerator.n_used_features_bounds_witness :
    (1 ≤ AxisAlignedRandomSplitGenerator.n_used_features (⟨[], 0, 16⟩ : DataView2D Int) ∧
      AxisAlignedRandomSplitGenerator.n_used_features (⟨[], 0, 16⟩ : DataView2D Int) ≤ 16) ∧
    AxisAlignedRandomSplitGenerator.n_used_features (⟨[], 0, 0⟩ : DataView2D Int) = 0 ∧
    (AxisAlignedRandomSplitGenerator.init 3 ⟨⟨[3]⟩, 1⟩ (⟨[], 0, 0⟩ : DataView2D Int)
        ⟨fun i => i⟩).map (fun r => r.1) = some ⟨⟨[]⟩, 0⟩ := by
  obtain ⟨_, h16, _⟩ := AxisAlignedRandomSplitGenerator.n_used_features_bounds ⟨⟨[3]⟩, 1⟩
    (⟨[], 0, 16⟩ : DataView2D Int)
  obtain ⟨_, _, h0⟩ := AxisAlignedRandomSplitGenerator.n_used_features_bounds ⟨⟨[3]⟩, 1⟩
    (⟨[], 0, 0⟩ : DataView2D Int)
  obtain ⟨a, b, _⟩ := h16 (by decide)
  obtain ⟨c, d⟩ := h0 rfl
  exact ⟨⟨a, b⟩, c, by rw [d 3 ⟨fun i => i⟩]; rfl⟩

/-- Witness for C18: 16 columns and the draws `5, 5, 9, 0, 21, 7`; the sixth
proposal has its feature in `[0, 16)`. -/
theorem AxisAlignedRandomSplitGenerator.gen_proposal_feature_in_range_witness :
    ∃ r, AxisAlignedRandomSplitGenerator.init 6 ⟨⟨[3]⟩, 1⟩ (⟨[], 0, 16⟩ : DataView2D Int)
        ⟨fun i => [5, 5, 9, 0, 21, 7].getD i 0⟩ = some r ∧
      ∃ out : AxisAlignedSplitter Int × AxisAlignedRandomSplitGenerator × RandomGen,
        AxisAlignedRandomSplitGenerator.nth_proposal 5 r.1 ⟨fun _ => 0⟩ = some out ∧
        0 ≤ out.1.feature ∧ out.1.feature < 16 := by
  have hmap : (AxisAlignedRandomSplitGenerator.init 6 ⟨⟨[3]⟩, 1⟩
      (⟨[], 0, 16⟩ : DataView2D Int) ⟨fun i => [5, 5, 9, 0, 21, 7].getD i 0⟩).map
      (fun r => r.1) = some ⟨⟨[5, 9, 0, 7]⟩, 0⟩ := by
    simp only [AxisAlignedRandomSplitGenerator.init, Int.toNat_ofNat, nat_sqrt_sixteen]
    rfl
  cases hr : AxisAlignedRandomSplitGenerator.init 6 ⟨⟨[3]⟩, 1⟩
      (⟨[], 0, 16⟩ : DataView2D Int) ⟨fun i => [5, 5, 9, 0, 21, 7].getD i 0⟩ with
  | none => rw [hr] at hmap; cases hmap
  | some r =>
    obtain ⟨out, h1, h2, h3, _⟩ :=
      AxisAlignedRandomSplitGenerator.gen_proposal_feature_in_range 6 ⟨⟨[3]⟩, 1⟩
        (⟨[], 0, 16⟩ : DataView2D Int) ⟨fun i => [5, 5, 9, 0, 21, 7].getD i 0⟩ r 5
        ⟨fun _ => 0⟩ (by decide) hr
    exact ⟨r, rfl, out, h1, h2, h3⟩

end RandomForest
